import Mathlib

/-!
Verification of the fiber-resampling engine and tree-structured fiber store of
the `tractography` repository (`fibers.py`, two near-identical variants; the
`neurobeer` variant is the superset and is the one embedded here).

The embedding is shallow:
* Python's nested `defaultdict` tree is a three-level association list
  (fiber index -> point index -> attribute name -> leaf value);
  auto-vivification on reads (the `defaultdict` behaviour of creating empty
  subtrees when a missing key is accessed) is modelled explicitly by `access3`.
* numeric values are `Rat` (the code only divides, multiplies, adds and rounds,
  so exact rational arithmetic is the shallow model of the float computation);
  arc length additionally needs a square root and is modelled over `Real`.
* Python 2 `round` (half away from zero) is `pyround`.
* fallible operations return `Option`: `none` is an exception escaping the
  call (ZeroDivisionError, TypeError on `float(defaultdict)`, IndexError, ...).
-/

/-- Python 2 `round`: round half away from zero, as an integer result
(`int(round(x))` in the source; the argument is already integral-or-fractional
exact, so `int` truncation is the identity on the rounded value). -/
def pyround (q : ℚ) : ℤ :=
  if 0 ≤ q then ⌊q + 1/2⌋ else ⌈q - 1/2⌉

/-- Lookup in an association list (Python `dict` access that does not create). -/
def alook {K V : Type} [DecidableEq K] : List (K × V) → K → Option V
  | [], _ => none
  | (k, v) :: rest, key => if k = key then some v else alook rest key

/-- Update/insert in an association list (Python `dict` assignment: replaces the
value in place if the key exists, otherwise appends the new key). -/
def aset {K V : Type} [DecidableEq K] : List (K × V) → K → V → List (K × V)
  | [], key, val => [(key, val)]
  | (k, v) :: rest, key, val =>
    if k = key then (k, val) :: rest else (k, v) :: aset rest key val

/-- A leaf of the quantitative tree: either a stored numeric value, or an empty
subtree created by `defaultdict` auto-vivification (on which `float(...)` and
any arithmetic raise `TypeError`). -/
inductive LeafVal : Type
  | num : ℚ → LeafVal
  | emptyTree : LeafVal
  deriving DecidableEq, Repr

/-- Innermost tree level: attribute name (`'x'`, `'y'`, `'z'`, scalar type) to leaf. -/
abbrev Level3 := List (String × LeafVal)

/-- Middle tree level: point index to attribute map. -/
abbrev Level2 := List (ℕ × Level3)

/-- The `tree()` store of `fibers.py`: fiber index to point index to attribute
name to value, as built by `defaultdict(tree)`. -/
abbrev Store := List (ℕ × Level2)

/-- A leaf read succeeds only on a stored number (`float` of an empty vivified
subtree raises `TypeError`). -/
def leafNum : Option LeafVal → Option ℚ
  | some (.num q) => some q
  | _ => none

/-- Pure read of a numeric leaf: `tree[f][p][c]` when every key on the path is
present and holds a number; `none` encodes the raised exception otherwise. -/
def lookup3 (s : Store) (f p : ℕ) (c : String) : Option ℚ :=
  (alook s f).bind fun l2 => (alook l2 p).bind fun l3 => leafNum (alook l3 c)

/-- Write of a numeric leaf: `tree[f][p][c] = q`.  Intermediate levels are
created when missing (the `defaultdict` vivification on the assignment path). -/
def set3 (s : Store) (f p : ℕ) (c : String) (q : ℚ) : Store :=
  let l2 := (alook s f).getD []
  let l3 := (alook l2 p).getD []
  aset s f (aset l2 p (aset l3 c (.num q)))

/-- Reading access `float(tree[f][p][c])` with `defaultdict` semantics: a missing
key on the path is created as an empty subtree (mutating the store) and the
read fails; a present numeric leaf is returned with the store unchanged. -/
def access3 (s : Store) (f p : ℕ) (c : String) : Option ℚ × Store :=
  match alook s f with
  | none => (none, aset s f (aset [] p (aset [] c .emptyTree)))
  | some l2 =>
    match alook l2 p with
    | none => (none, aset s f (aset l2 p (aset [] c .emptyTree)))
    | some l3 =>
      match alook l3 c with
      | none => (none, aset s f (aset l2 p (aset l3 c .emptyTree)))
      | some .emptyTree => (none, s)
      | some (.num q) => (some q, s)

/-- The opaque line-set geometry (`vtkPolyData`): a point table and, per line,
the ordered list of point ids (`vtkIdList` of each cell).  `GetPoint` on an
out-of-range id and `GetId` on an out-of-range position perform no bounds
check in VTK; they are modelled by `List.getD` with a default. -/
structure PolyData : Type where
  points : List (ℚ × ℚ × ℚ)
  lines : List (List ℕ)
  deriving DecidableEq, Repr

/-- `FiberTree.__init__`: the store plus the two metadata fields, both `None`
until `convertFromVTK` (or `convertFromTuple`) runs. -/
structure FiberTree : Type where
  fiberTree : Store
  no_of_fibers : Option ℕ
  pts_per_fiber : Option ℕ
  deriving DecidableEq, Repr

/-- A freshly constructed `FiberTree()`. -/
def emptyFiberTree : FiberTree := ⟨[], none, none⟩

/-- `FiberTree._calc_fiber_indices` (the Resampler): fractional sample
positions `idx * stepLength` with `stepLength = (fiberLength - 1.0) /
(pts_per_fiber - 1.0)`.  `pts_per_fiber = 1` makes the step a division by
zero (Python `ZeroDivisionError`), modelled as `none`; any other count
returns the `pts_per_fiber`-element list (empty for `pts_per_fiber = 0`). -/
def calc_fiber_indices (fiberLength pts_per_fiber : ℕ) : Option (List ℚ) :=
  if pts_per_fiber = 1 then none
  else
    some ((List.range pts_per_fiber).map
      (fun idx : ℕ => (idx : ℚ) * (((fiberLength : ℚ) - 1) / ((pts_per_fiber : ℚ) - 1))))

/-- The fractional sample position `i * (n - 1) / (t - 1)` (spec section 4.1). -/
def samplePos (n t i : ℕ) : ℚ :=
  (i : ℚ) * (((n : ℚ) - 1) / ((t : ℚ) - 1))

/-- The rounded source index used for nearest-neighbor lookup:
`int(round(lineIdx))`, then used as a position into the line's id list. -/
def srcIdx (n t i : ℕ) : ℕ :=
  (pyround (samplePos n t i)).toNat

/-- The coordinate sampled for target index `i` of a fiber whose id list is
`line`: `inputPts.GetPoint(ptIds.GetId(int(round(lineIdx))))`. -/
def samplePt (g : PolyData) (line : List ℕ) (t i : ℕ) : ℚ × ℚ × ℚ :=
  g.points.getD (line.getD (srcIdx line.length t i) 0) (0, 0, 0)

/-- The list of coordinates `convertFromVTK` samples for one fiber: the
resampler's positions, each rounded and resolved through the id list and the
point table. -/
def fiberSamples (g : PolyData) (t : ℕ) (line : List ℕ) : Option (List (ℚ × ℚ × ℚ)) :=
  (calc_fiber_indices line.length t).map
    (fun idxs => idxs.map
      (fun lineIdx => g.points.getD (line.getD (pyround lineIdx).toNat 0) (0, 0, 0)))

/-- The inner ingestion loop for one fiber: successive writes
`tree[fidx][pidx]['x'/'y'/'z'] = pt[0/1/2]` for `pidx = p0, p0+1, ...`. -/
def writeFiber (s : Store) (f p0 : ℕ) : List (ℚ × ℚ × ℚ) → Store
  | [] => s
  | pt :: rest =>
    writeFiber (set3 (set3 (set3 s f p0 "x" pt.1) f p0 "y" pt.2.1) f p0 "z" pt.2.2)
      f (p0 + 1) rest

/-- The outer loop of `convertFromVTK` over the traversed cells, starting at
fiber index `f0`: compute the fiber's samples (propagating the resampler's
error) and write them at point indices `0, 1, ...`. -/
def ingestLines (g : PolyData) (t : ℕ) (s : Store) (f0 : ℕ) :
    List (List ℕ) → Option Store
  | [] => some s
  | line :: rest =>
    match fiberSamples g t line with
    | none => none
    | some cs => ingestLines g t (writeFiber s f0 0 cs) (f0 + 1) rest

/-- `FiberTree.convertFromVTK`: sets `no_of_fibers` from the line count and
`pts_per_fiber` from the argument, then ingests every line in order.  `none`
is the `ZeroDivisionError` escaping from `_calc_fiber_indices`. -/
def convertFromVTK (g : PolyData) (pts_per_fiber : ℕ) : Option FiberTree :=
  (ingestLines g pts_per_fiber [] 0 g.lines).map
    (fun s => ⟨s, some g.lines.length, some pts_per_fiber⟩)

/-- The three coordinate reads of one resampled point, as pure lookups
(`float(tree[f][p]['x'])` and likewise `'y'`, `'z'`). -/
def pointAt (s : Store) (f p : ℕ) : Option (ℚ × ℚ × ℚ) :=
  match lookup3 s f p "x", lookup3 s f p "y", lookup3 s f p "z" with
  | some x, some y, some z => some (x, y, z)
  | _, _, _ => none

/-- Read the points of one fiber at the given point indices, failing on the
first missing value (the exception aborting the Python loop). -/
def readPts (s : Store) (f : ℕ) : List ℕ → Option (List (ℚ × ℚ × ℚ))
  | [] => some []
  | p :: ps =>
    match pointAt s f p with
    | none => none
    | some pt =>
      match readPts s f ps with
      | none => none
      | some rest => some (pt :: rest)

/-- The loop of `FiberTree.getFiber` with the `defaultdict` mutation made
explicit: per point index the `'x'`, `'y'`, `'z'` accesses happen in order,
each possibly vivifying missing nodes; an exception aborts the loop leaving
the store as mutated so far. -/
def getFiberLoop (s : Store) (f : ℕ) :
    List ℕ → Option (List (ℚ × ℚ × ℚ)) × Store
  | [] => (some [], s)
  | p :: ps =>
    match access3 s f p "x" with
    | (none, s1) => (none, s1)
    | (some x, s1) =>
      match access3 s1 f p "y" with
      | (none, s2) => (none, s2)
      | (some y, s2) =>
        match access3 s2 f p "z" with
        | (none, s3) => (none, s3)
        | (some z, s3) =>
          match getFiberLoop s3 f ps with
          | (none, s4) => (none, s4)
          | (some rest, s4) => (some ((x, y, z) :: rest), s4)

/-- `FiberTree.getFiber`: result value and resulting store state.  With
`pts_per_fiber` still `None` the call raises before touching the tree
(`np.zeros(None)` / `range(None)`). -/
def getFiberS (ft : FiberTree) (fiberIdx : ℕ) :
    Option (List (ℚ × ℚ × ℚ)) × Store :=
  match ft.pts_per_fiber with
  | none => (none, ft.fiberTree)
  | some t => getFiberLoop ft.fiberTree fiberIdx (List.range t)

/-- The value returned by `FiberTree.getFiber` (ignoring the store mutation). -/
def getFiber (ft : FiberTree) (fiberIdx : ℕ) : Option (List (ℚ × ℚ × ℚ)) :=
  (getFiberS ft fiberIdx).1

/-- The read loop of `FiberTree.getScalar`. -/
def getScalarLoop (s : Store) (f : ℕ) (scalarType : String) :
    List ℕ → Option (List ℚ)
  | [] => some []
  | p :: ps =>
    match lookup3 s f p scalarType with
    | none => none
    | some v =>
      match getScalarLoop s f scalarType ps with
      | none => none
      | some rest => some (v :: rest)

/-- `FiberTree.getScalar`: the scalar values of one fiber at point indices
`0 .. pts_per_fiber - 1`. -/
def getScalar (ft : FiberTree) (fidx : ℕ) (scalarType : String) : Option (List ℚ) :=
  match ft.pts_per_fiber with
  | none => none
  | some t => getScalarLoop ft.fiberTree fidx scalarType (List.range t)

/-- The loop of `FiberTree.getFibers`: `M` is the preallocated
`np.zeros((len(fidxes), pts_per_fiber))` output (as rows of point triples),
`idx` the write cursor that advances only on non-rejected fibers. -/
def getFibersLoop (s : Store) (t : ℕ) (rejIdx : List ℕ)
    (M : List (List (ℚ × ℚ × ℚ))) (idx : ℕ) :
    List ℕ → Option (List (List (ℚ × ℚ × ℚ)))
  | [] => some M
  | f :: fs =>
    if f ∈ rejIdx then getFibersLoop s t rejIdx M idx fs
    else
      match readPts s f (List.range t) with
      | none => none
      | some row => getFibersLoop s t rejIdx (M.set idx row) (idx + 1) fs

/-- `FiberTree.getFibers(fidxes, rejIdx)`: the dense output arrays, with the
zero rows of the preallocation kept wherever no fiber was written. -/
def getFibers (ft : FiberTree) (fidxes rejIdx : List ℕ) :
    Option (List (List (ℚ × ℚ × ℚ))) :=
  match ft.pts_per_fiber with
  | none => none
  | some t =>
    getFibersLoop ft.fiberTree t rejIdx
      (List.replicate fidxes.length (List.replicate t (0, 0, 0))) 0 fidxes

/-- The read loop of `FiberTree.getScalar` with the `defaultdict` mutation made
explicit: one `float(tree[f][p][scalarType])` access per point index, each
possibly vivifying missing nodes; an exception aborts the loop leaving the
store as mutated so far. -/
def getScalarLoopS (s : Store) (f : ℕ) (scalarType : String) :
    List ℕ → Option (List ℚ) × Store
  | [] => (some [], s)
  | p :: ps =>
    match access3 s f p scalarType with
    | (none, s1) => (none, s1)
    | (some v, s1) =>
      match getScalarLoopS s1 f scalarType ps with
      | (none, s2) => (none, s2)
      | (some rest, s2) => (some (v :: rest), s2)

/-- `FiberTree.getScalar`: result value and resulting store state. -/
def getScalarS (ft : FiberTree) (fidx : ℕ) (scalarType : String) :
    Option (List ℚ) × Store :=
  match ft.pts_per_fiber with
  | none => (none, ft.fiberTree)
  | some t => getScalarLoopS ft.fiberTree fidx scalarType (List.range t)

/-- The loop of `FiberTree.getFibers` with the store mutation made explicit:
per non-rejected fiber the same per-point `'x'`, `'y'`, `'z'` accesses as
`getFiber`, writing the row at the cursor position into the preallocated
zero matrix. -/
def getFibersLoopS (s : Store) (t : ℕ) (rejIdx : List ℕ)
    (M : List (List (ℚ × ℚ × ℚ))) (idx : ℕ) :
    List ℕ → Option (List (List (ℚ × ℚ × ℚ))) × Store
  | [] => (some M, s)
  | f :: fs =>
    if f ∈ rejIdx then getFibersLoopS s t rejIdx M idx fs
    else
      match getFiberLoop s f (List.range t) with
      | (none, s1) => (none, s1)
      | (some row, s1) => getFibersLoopS s1 t rejIdx (M.set idx row) (idx + 1) fs

/-- `FiberTree.getFibers(fidxes, rejIdx)`: result value and resulting store
state. -/
def getFibersS (ft : FiberTree) (fidxes rejIdx : List ℕ) :
    Option (List (List (ℚ × ℚ × ℚ))) × Store :=
  match ft.pts_per_fiber with
  | none => (none, ft.fiberTree)
  | some t =>
    getFibersLoopS ft.fiberTree t rejIdx
      (List.replicate fidxes.length (List.replicate t (0, 0, 0))) 0 fidxes

/-- The loop of `FiberTree.getScalars` with the store mutation made explicit:
per requested fiber (no exclusion parameter here) the same per-point scalar
accesses as `getScalar`, writing rows of the preallocated zero matrix. -/
def getScalarsLoopS (s : Store) (t : ℕ) (scalarType : String)
    (M : List (List ℚ)) (idx : ℕ) : List ℕ → Option (List (List ℚ)) × Store
  | [] => (some M, s)
  | f :: fs =>
    match getScalarLoopS s f scalarType (List.range t) with
    | (none, s1) => (none, s1)
    | (some row, s1) => getScalarsLoopS s1 t scalarType (M.set idx row) (idx + 1) fs

/-- `FiberTree.getScalars(fidxes, scalarType)`: result value and resulting
store state. -/
def getScalarsS (ft : FiberTree) (fidxes : List ℕ) (scalarType : String) :
    Option (List (List ℚ)) × Store :=
  match ft.pts_per_fiber with
  | none => (none, ft.fiberTree)
  | some t =>
    getScalarsLoopS ft.fiberTree t scalarType
      (List.replicate fidxes.length (List.replicate t 0)) 0 fidxes

/-- The ids `outPts.InsertNextPoint` hands back for one exported fiber:
`start, start+1, ..., start+t-1`. -/
def fiberIdsFrom (start t : ℕ) : List ℕ :=
  (List.range t).map (start + ·)

/-- The loop of `FiberTree.convertToVTK`: accumulate the inserted points and
the emitted lines, skipping rejected fiber indices. -/
def convertToVTKLoop (s : Store) (t : ℕ) (rejIdx : List ℕ)
    (pts : List (ℚ × ℚ × ℚ)) (lns : List (List ℕ)) :
    List ℕ → Option (List (ℚ × ℚ × ℚ) × List (List ℕ))
  | [] => some (pts, lns)
  | f :: fs =>
    if f ∈ rejIdx then convertToVTKLoop s t rejIdx pts lns fs
    else
      match readPts s f (List.range t) with
      | none => none
      | some row =>
        convertToVTKLoop s t rejIdx (pts ++ row)
          (lns ++ [fiberIdsFrom pts.length t]) fs

/-- `FiberTree.convertToVTK(rejIdx)`: rebuild a line-set geometry from the
store, iterating fibers in index order and skipping the excluded ones. -/
def convertToVTK (ft : FiberTree) (rejIdx : List ℕ) : Option PolyData :=
  match ft.no_of_fibers, ft.pts_per_fiber with
  | some n, some t =>
    (convertToVTKLoop ft.fiberTree t rejIdx [] [] (List.range n)).map
      (fun st => ⟨st.1, st.2⟩)
  | _, _ => none

/-- The per-fiber coordinate sequences of a geometry: each line's ids resolved
through the point table (the observation the round-trip property compares). -/
def fiberCoords (g : PolyData) : List (List (ℚ × ℚ × ℚ)) :=
  g.lines.map (fun line => line.map (fun pid => g.points.getD pid (0, 0, 0)))

/-- The scalar values `addScalar` reads for one fiber, given the resampler's
fractional positions: `scalarData[ptIds.GetId(int(round(lineIdx)))]`, where
the Python list indexing raises `IndexError` when out of range. -/
def scalarValsAt (line : List ℕ) (scalarData : List ℚ) : List ℚ → Option (List ℚ)
  | [] => some []
  | lineIdx :: rest =>
    match scalarData.get? (line.getD (pyround lineIdx).toNat 0) with
    | none => none
    | some v =>
      match scalarValsAt line scalarData rest with
      | none => none
      | some vs => some (v :: vs)

/-- All scalar values sampled for one fiber by `addScalar`. -/
def scalarSamples (line : List ℕ) (scalarData : List ℚ) (t : ℕ) : Option (List ℚ) :=
  (calc_fiber_indices line.length t).bind (scalarValsAt line scalarData)

/-- The writes `tree[fidx][pidx][scalarType] = v` for `pidx = p0, p0+1, ...`. -/
def writeScalar (s : Store) (f : ℕ) (scalarType : String) (p0 : ℕ) : List ℚ → Store
  | [] => s
  | v :: vs => writeScalar (set3 s f p0 scalarType v) f scalarType (p0 + 1) vs

/-- The outer loop of `addScalar` over `range(no_of_fibers)` traversing the
geometry's cells in order (`k` fibers remaining, next fiber index `f0`). -/
def addScalarLoop (g : PolyData) (scalarData : List ℚ) (scalarType : String)
    (t : ℕ) (s : Store) (f0 : ℕ) : ℕ → Option Store
  | 0 => some s
  | k + 1 =>
    match scalarSamples (g.lines.getD f0 []) scalarData t with
    | none => none
    | some vs => addScalarLoop g scalarData scalarType t (writeScalar s f0 scalarType 0 vs) (f0 + 1) k

/-- `FiberTree.addScalar(inputVTK, scalarData, scalarType, pts_per_fiber)`:
resamples every fiber of the geometry with the function's own
`pts_per_fiber` argument and stores the scalar at the resulting point
indices.  Fails (`none`) before touching anything if `no_of_fibers` is still
`None`, and propagates the resampler's and the list-indexing errors. -/
def addScalar (ft : FiberTree) (g : PolyData) (scalarData : List ℚ)
    (scalarType : String) (pts_per_fiber : ℕ) : Option FiberTree :=
  match ft.no_of_fibers with
  | none => none
  | some n =>
    (addScalarLoop g scalarData scalarType pts_per_fiber ft.fiberTree 0 n).map
      (fun s => ⟨s, ft.no_of_fibers, ft.pts_per_fiber⟩)

/-- The scalar value the spec assigns to sample `i` of fiber `f`: the entry of
the flat scalar array at the nearest original point (the source id found by
rounding the fractional sample position and resolving it through the fiber's
id list).  Follows spec sections 4.1 and 4.3. -/
def scalarAt (g : PolyData) (scalarData : List ℚ) (f t i : ℕ) : ℚ :=
  scalarData.getD
    ((g.lines.getD f []).getD (srcIdx (g.lines.getD f []).length t i) 0) 0

/-- The per-point scalar sequence the spec predicts `getScalar` returns after
`attachScalar`: for each resampled point, the scalar of the nearest original
point, never an interpolated value. -/
def nearestOriginalScalar (g : PolyData) (scalarData : List ℚ) (f t : ℕ) : List ℚ :=
  (List.range t).map (scalarAt g scalarData f t)

/-- One term of the arc-length sum:
`np.sqrt((x2 - x1)**2 + (y2 - y1)**2 + (z2 - z1)**2)` with `a` the earlier
point (`idx - 1`) and `b` the current point (`idx`). -/
noncomputable def segLen (a b : ℚ × ℚ × ℚ) : ℝ :=
  Real.sqrt ((((a.1 - b.1 : ℚ) : ℝ)) ^ 2 + (((a.2.1 - b.2.1 : ℚ) : ℝ)) ^ 2 +
    (((a.2.2 - b.2.2 : ℚ) : ℝ)) ^ 2)

/-- The inner loop of `calcFiberLength` for one fiber: for each `idx` in
`range(1, no_of_pts)` read the points at `idx` and `idx - 1` and accumulate
the segment length; a missing tree entry raises. -/
noncomputable def fiberLenLoop (s : Store) (f : ℕ) : List ℕ → Option ℝ
  | [] => some 0
  | idx :: rest =>
    match pointAt s f idx, pointAt s f (idx - 1) with
    | some cur, some prev =>
      match fiberLenLoop s f rest with
      | none => none
      | some L => some (segLen prev cur + L)
    | _, _ => none

/-- The outer loop of `calcFiberLength` over the requested fiber indices. -/
noncomputable def calcLens (s : Store) (t : ℕ) : List ℕ → Option (List ℝ)
  | [] => some []
  | f :: fs =>
    match fiberLenLoop s f (List.range' 1 (t - 1)) with
    | none => none
    | some L =>
      match calcLens s t fs with
      | none => none
      | some Ls => some (L :: Ls)

/-- `calcFiberLength(fiberData, fidxes)`: one arc length per requested fiber;
raises `ValueError` when `pts_per_fiber < 2` (in Python 2 also when it is
still `None`, since `None < 2` holds there). -/
noncomputable def calcFiberLength (fiberData : FiberTree) (fidxes : List ℕ) :
    Option (List ℝ) :=
  match fiberData.pts_per_fiber with
  | none => none
  | some t => if t < 2 then none else calcLens fiberData.fiberTree t fidxes

/-- The spec's arc length of a point sequence:
`sum over i of dist(p[i-1], p[i])` for consecutive resampled points. -/
noncomputable def arcLengthSpec : List (ℚ × ℚ × ℚ) → ℝ
  | [] => 0
  | [_] => 0
  | a :: b :: rest => segLen a b + arcLengthSpec (b :: rest)

/-- The resampled point sequence of fiber `f` after ingestion. -/
def resampledFiber (g : PolyData) (t f : ℕ) : List (ℚ × ℚ × ℚ) :=
  (List.range t).map (samplePt g (g.lines.getD f []) t)

/-- Partial arc-length sums, `k` segments starting at index `a`. -/
noncomputable def segSum (pts : ℕ → ℚ × ℚ × ℚ) : ℕ → ℕ → ℝ
  | _, 0 => 0
  | a, k + 1 => segLen (pts (a - 1)) (pts a) + segSum pts (a + 1) k

/-- A geometry whose single fiber has exactly one point. -/
def gOnePt : PolyData := ⟨[(1, 2, 3)], [[0]]⟩

/-- The store obtained by ingesting `gOnePt` with targetPointCount = 0. -/
def zeroFt : FiberTree := (convertFromVTK gOnePt 0).getD emptyFiberTree

/-- The store obtained by ingesting `gOnePt` with targetPointCount = 2. -/
def cft7 : FiberTree := (convertFromVTK gOnePt 2).getD emptyFiberTree

/-- A geometry with four one-point fibers at distinct coordinates. -/
def gFour : PolyData :=
  ⟨[(1, 1, 1), (2, 2, 2), (3, 3, 3), (4, 4, 4)], [[0], [1], [2], [3]]⟩

/-- The store obtained by ingesting `gFour` with targetPointCount = 2. -/
def ftFour : FiberTree := (convertFromVTK gFour 2).getD emptyFiberTree

/-- A geometry with one two-point fiber. -/
def wg2 : PolyData := ⟨[(1, 2, 3), (4, 5, 6)], [[0, 1]]⟩

/-- The store obtained by ingesting `wg2` with targetPointCount = 2. -/
def wft2 : FiberTree := (convertFromVTK wg2 2).getD emptyFiberTree

/-- A flat scalar array indexed by `wg2`'s point ids. -/
def wsd : List ℚ := [10, 20]

/-- `wft2` after attaching the scalar "FA" with the same target count 2. -/
def wft8 : FiberTree := (addScalar wft2 wg2 wsd "FA" 2).getD emptyFiberTree

/-- `wft2` after attaching the scalar "FA" with a mismatched target count 3. -/
def wftA : FiberTree := (addScalar wft2 wg2 wsd "FA" 3).getD emptyFiberTree

/-- The spec's arc-length test polyline: (0,0,0), (1,0,0), (1,1,0). -/
def wg9 : PolyData := ⟨[(0, 0, 0), (1, 0, 0), (1, 1, 0)], [[0, 1, 2]]⟩

/-- The store obtained by ingesting `wg9` with targetPointCount = 3. -/
def wft9 : FiberTree := (convertFromVTK wg9 3).getD emptyFiberTree

theorem alook_aset_self {K V : Type} [DecidableEq K] (l : List (K × V)) (k : K) (v : V) :
    alook (aset l k v) k = some v := by
  induction l with
  | nil => simp [aset, alook]
  | cons hd tl ih =>
    obtain ⟨k', v'⟩ := hd
    by_cases h : k' = k
    · simp [aset, alook, h]
    · simp [aset, alook, h, ih]

theorem alook_aset_ne {K V : Type} [DecidableEq K] (l : List (K × V)) (k k' : K) (v : V)
    (h : k ≠ k') : alook (aset l k v) k' = alook l k' := by
  induction l with
  | nil => simp [aset, alook, h]
  | cons hd tl ih =>
    obtain ⟨k0, v0⟩ := hd
    by_cases h0 : k0 = k
    · subst h0
      simp [aset, alook, h]
    · simp only [aset, if_neg h0]
      by_cases h1 : k0 = k'
      · simp [alook, h1]
      · simp [alook, h1, ih]

theorem lookup3_set3_self (s : Store) (f p : ℕ) (c : String) (q : ℚ) :
    lookup3 (set3 s f p c q) f p c = some q := by
  simp [set3, lookup3, alook_aset_self, leafNum]

theorem alook_set3_ne (s : Store) (f p : ℕ) (c : String) (q : ℚ) (f' : ℕ) (h : f ≠ f') :
    alook (set3 s f p c q) f' = alook s f' := by
  simp [set3, alook_aset_ne _ _ _ _ h]

theorem lookup3_set3_ne (s : Store) (f p : ℕ) (c : String) (q : ℚ) (f' p' : ℕ) (c' : String)
    (h : f ≠ f' ∨ p ≠ p' ∨ c ≠ c') :
    lookup3 (set3 s f p c q) f' p' c' = lookup3 s f' p' c' := by
  by_cases hff : f = f'
  · subst hff
    simp only [lookup3, set3]
    rw [alook_aset_self]
    simp only [Option.some_bind]
    by_cases hpp : p = p'
    · subst hpp
      rw [alook_aset_self]
      simp only [Option.some_bind]
      have hcc : c ≠ c' := by tauto
      rw [alook_aset_ne _ _ _ _ hcc]
      rcases hf : alook s f with _ | l2
      · simp [alook, leafNum]
      · simp only [Option.getD_some, Option.some_bind]
        rcases hp : alook l2 p with _ | l3
        · simp [alook, leafNum]
        · simp
    · rw [alook_aset_ne _ _ _ _ hpp]
      rcases hf : alook s f with _ | l2
      · simp [alook]
      · simp
  · simp [lookup3, alook_set3_ne _ _ _ _ _ _ hff]

theorem access3_fst (s : Store) (f p : ℕ) (c : String) :
    (access3 s f p c).1 = lookup3 s f p c := by
  rcases hf : alook s f with _ | l2
  · simp [access3, lookup3, hf]
  · rcases hp : alook l2 p with _ | l3
    · simp [access3, lookup3, hf, hp]
    · rcases hc : alook l3 c with _ | v
      · simp [access3, lookup3, hf, hp, hc, leafNum]
      · cases v <;> simp [access3, lookup3, hf, hp, hc, leafNum]

theorem access3_some_snd (s : Store) (f p : ℕ) (c : String) (q : ℚ)
    (h : (access3 s f p c).1 = some q) : (access3 s f p c).2 = s := by
  rcases hf : alook s f with _ | l2
  · simp [access3, hf] at h
  · rcases hp : alook l2 p with _ | l3
    · simp [access3, hf, hp] at h
    · rcases hc : alook l3 c with _ | v
      · simp [access3, hf, hp, hc] at h
      · cases v <;> simp [access3, hf, hp, hc] at h ⊢

theorem calc_fiber_indices_eq (n t : ℕ) (h : t ≠ 1) :
    calc_fiber_indices n t = some ((List.range t).map (samplePos n t)) := by
  simp only [calc_fiber_indices, if_neg h]
  rfl

theorem fiberSamples_eq (g : PolyData) (t : ℕ) (line : List ℕ) (h : t ≠ 1) :
    fiberSamples g t line = some ((List.range t).map (samplePt g line t)) := by
  simp [fiberSamples, calc_fiber_indices_eq _ _ h, samplePt, srcIdx]

theorem pyround_natCast (p : ℕ) : pyround (p : ℚ) = p := by
  have h0 : (0 : ℚ) ≤ (p : ℚ) := by positivity
  rw [pyround, if_pos h0]
  rw [Int.floor_eq_iff]
  constructor
  · push_cast
    linarith
  · push_cast
    linarith

theorem map_getD_range {α β : Type} (l : List α) (f : α → β) (d : α) :
    (List.range l.length).map (fun i => f (l.getD i d)) = l.map f := by
  induction l with
  | nil => simp
  | cons a tl ih =>
    rw [List.length_cons, List.range_succ_eq_map]
    simp only [List.map_cons, List.map_map]
    rw [List.getD_cons_zero]
    refine congrArg _ ?_
    calc (List.range tl.length).map ((fun i => f ((a :: tl).getD i d)) ∘ Nat.succ)
        = (List.range tl.length).map (fun i => f (tl.getD i d)) := by
          refine List.map_congr_left ?_
          intro i _
          simp
      _ = tl.map f := ih

theorem lookup3_congr (s s' : Store) (f : ℕ) (h : alook s' f = alook s f) (p : ℕ) (c : String) :
    lookup3 s' f p c = lookup3 s f p c := by
  simp [lookup3, h]

theorem alook_writeFiber_ne (cs : List (ℚ × ℚ × ℚ)) (s : Store) (f p0 : ℕ) (f' : ℕ)
    (h : f ≠ f') : alook (writeFiber s f p0 cs) f' = alook s f' := by
  induction cs generalizing s p0 with
  | nil => rfl
  | cons pt rest ih =>
    rw [writeFiber, ih]
    rw [alook_set3_ne _ _ _ _ _ _ h, alook_set3_ne _ _ _ _ _ _ h, alook_set3_ne _ _ _ _ _ _ h]

theorem lookup3_writeFiber_lo (cs : List (ℚ × ℚ × ℚ)) (s : Store) (f p0 : ℕ) (p : ℕ) (c : String)
    (h : p < p0) : lookup3 (writeFiber s f p0 cs) f p c = lookup3 s f p c := by
  induction cs generalizing s p0 with
  | nil => rfl
  | cons pt rest ih =>
    rw [writeFiber, ih _ _ (by omega)]
    have hp : p0 ≠ p := by omega
    rw [lookup3_set3_ne _ _ _ _ _ _ _ _ (Or.inr (Or.inl hp)),
      lookup3_set3_ne _ _ _ _ _ _ _ _ (Or.inr (Or.inl hp)),
      lookup3_set3_ne _ _ _ _ _ _ _ _ (Or.inr (Or.inl hp))]

theorem lookup3_writeFiber_hi (cs : List (ℚ × ℚ × ℚ)) (s : Store) (f p0 : ℕ) (p : ℕ) (c : String)
    (h : p0 + cs.length ≤ p) : lookup3 (writeFiber s f p0 cs) f p c = lookup3 s f p c := by
  induction cs generalizing s p0 with
  | nil => rfl
  | cons pt rest ih =>
    rw [List.length_cons] at h
    rw [writeFiber, ih _ _ (by omega)]
    have hp : p0 ≠ p := by omega
    rw [lookup3_set3_ne _ _ _ _ _ _ _ _ (Or.inr (Or.inl hp)),
      lookup3_set3_ne _ _ _ _ _ _ _ _ (Or.inr (Or.inl hp)),
      lookup3_set3_ne _ _ _ _ _ _ _ _ (Or.inr (Or.inl hp))]

theorem lookup3_writeFiber_name (cs : List (ℚ × ℚ × ℚ)) (s : Store) (f p0 : ℕ)
    (f' p : ℕ) (c : String) (hx : c ≠ "x") (hy : c ≠ "y") (hz : c ≠ "z") :
    lookup3 (writeFiber s f p0 cs) f' p c = lookup3 s f' p c := by
  induction cs generalizing s p0 with
  | nil => rfl
  | cons pt rest ih =>
    rw [writeFiber, ih]
    rw [lookup3_set3_ne _ _ _ _ _ _ _ _ (Or.inr (Or.inr (Ne.symm hz))),
      lookup3_set3_ne _ _ _ _ _ _ _ _ (Or.inr (Or.inr (Ne.symm hy))),
      lookup3_set3_ne _ _ _ _ _ _ _ _ (Or.inr (Or.inr (Ne.symm hx)))]

theorem pointAt_mk (s : Store) (f p : ℕ) (x y z : ℚ)
    (h1 : lookup3 s f p "x" = some x) (h2 : lookup3 s f p "y" = some y)
    (h3 : lookup3 s f p "z" = some z) : pointAt s f p = some (x, y, z) := by
  simp [pointAt, h1, h2, h3]

theorem pointAt_writeFiber_at (cs : List (ℚ × ℚ × ℚ)) (s : Store) (f p0 : ℕ) (i : ℕ)
    (h : i < cs.length) :
    pointAt (writeFiber s f p0 cs) f (p0 + i) = cs.get? i := by
  induction cs generalizing s p0 i with
  | nil => exact absurd h (by simp)
  | cons pt rest ih =>
    match i with
    | 0 =>
      rw [writeFiber]
      have hx : lookup3 (writeFiber (set3 (set3 (set3 s f p0 "x" pt.1) f p0 "y" pt.2.1)
          f p0 "z" pt.2.2) f (p0 + 1) rest) f p0 "x" = some pt.1 := by
        rw [lookup3_writeFiber_lo _ _ _ _ _ _ (by omega)]
        rw [lookup3_set3_ne _ _ _ _ _ _ _ _ (Or.inr (Or.inr (by decide))),
          lookup3_set3_ne _ _ _ _ _ _ _ _ (Or.inr (Or.inr (by decide))),
          lookup3_set3_self]
      have hy : lookup3 (writeFiber (set3 (set3 (set3 s f p0 "x" pt.1) f p0 "y" pt.2.1)
          f p0 "z" pt.2.2) f (p0 + 1) rest) f p0 "y" = some pt.2.1 := by
        rw [lookup3_writeFiber_lo _ _ _ _ _ _ (by omega)]
        rw [lookup3_set3_ne _ _ _ _ _ _ _ _ (Or.inr (Or.inr (by decide))),
          lookup3_set3_self]
      have hz : lookup3 (writeFiber (set3 (set3 (set3 s f p0 "x" pt.1) f p0 "y" pt.2.1)
          f p0 "z" pt.2.2) f (p0 + 1) rest) f p0 "z" = some pt.2.2 := by
        rw [lookup3_writeFiber_lo _ _ _ _ _ _ (by omega)]
        rw [lookup3_set3_self]
      have e : p0 + 0 = p0 := rfl
      rw [e, pointAt_mk _ _ _ _ _ _ hx hy hz]
      rfl
    | j + 1 =>
      rw [writeFiber]
      have : p0 + (j + 1) = (p0 + 1) + j := by omega
      rw [this, ih _ _ _ (by simpa using Nat.lt_of_succ_lt_succ (by simpa using h))]
      rfl

theorem pointAt_congr (s s' : Store) (f : ℕ) (h : alook s' f = alook s f) (p : ℕ) :
    pointAt s' f p = pointAt s f p := by
  simp only [pointAt, lookup3_congr s s' f h]

theorem fiberSamples_some_ne_one (g : PolyData) (t : ℕ) (line : List ℕ)
    (cs : List (ℚ × ℚ × ℚ)) (h : fiberSamples g t line = some cs) : t ≠ 1 := by
  intro h1
  subst h1
  simp [fiberSamples, calc_fiber_indices] at h

theorem getq_map_range {α : Type} (t i : ℕ) (f : ℕ → α) (h : i < t) :
    ((List.range t).map f).get? i = some (f i) := by
  rw [List.get?_eq_getElem?, List.getElem?_map, List.getElem?_range h]
  rfl

theorem ingestLines_char (g : PolyData) (t : ℕ) :
    ∀ (ls : List (List ℕ)) (s s' : Store) (f0 : ℕ),
    ingestLines g t s f0 ls = some s' →
    (∀ f, (f < f0 ∨ f0 + ls.length ≤ f) → alook s' f = alook s f) ∧
    (∀ j, j < ls.length →
      (∀ p, p < t → pointAt s' (f0 + j) p = some (samplePt g (ls.getD j []) t p)) ∧
      (∀ p c, t ≤ p → lookup3 s' (f0 + j) p c = lookup3 s (f0 + j) p c) ∧
      (∀ p c, c ≠ "x" → c ≠ "y" → c ≠ "z" →
        lookup3 s' (f0 + j) p c = lookup3 s (f0 + j) p c))
  | [], s, s', f0, h => by
    rw [ingestLines] at h
    obtain rfl : s = s' := by simpa using h
    exact ⟨fun f _ => rfl, fun j hj => absurd hj (by simp)⟩
  | line :: rest, s, s', f0, h => by
    rw [ingestLines] at h
    rcases hcs : fiberSamples g t line with _ | cs
    · rw [hcs] at h
      exact absurd h (by simp)
    · rw [hcs] at h
      simp only at h
      have ht1 : t ≠ 1 := fiberSamples_some_ne_one g t line cs hcs
      have hcs' : cs = (List.range t).map (samplePt g line t) := by
        rw [fiberSamples_eq g t line ht1] at hcs
        exact (Option.some_inj.mp hcs).symm
      have hlen : cs.length = t := by rw [hcs']; simp
      obtain ⟨ihA, ihB⟩ := ingestLines_char g t rest (writeFiber s f0 0 cs) s' (f0 + 1) h
      refine ⟨?_, ?_⟩
      · intro f hf
        have hfz : f0 ≠ f := by
          rcases hf with hf | hf
          · omega
          · simp only [List.length_cons] at hf
            omega
        have h1 : alook s' f = alook (writeFiber s f0 0 cs) f := by
          refine ihA f ?_
          rcases hf with hf | hf
          · exact Or.inl (by omega)
          · simp only [List.length_cons] at hf
            exact Or.inr (by omega)
        rw [h1, alook_writeFiber_ne _ _ _ _ _ hfz]
      · intro j hj
        match j with
        | 0 =>
          have e0 : f0 + 0 = f0 := rfl
          have hkeep : alook s' f0 = alook (writeFiber s f0 0 cs) f0 :=
            ihA f0 (Or.inl (by omega))
          refine ⟨?_, ?_, ?_⟩
          · intro p hp
            rw [e0, pointAt_congr _ _ _ hkeep]
            have : pointAt (writeFiber s f0 0 cs) f0 (0 + p) = cs.get? p :=
              pointAt_writeFiber_at cs s f0 0 p (by omega)
            rw [Nat.zero_add] at this
            rw [this, hcs', getq_map_range t p _ hp]
            simp [List.getD_cons_zero]
          · intro p c hp
            rw [e0, lookup3_congr _ _ _ hkeep]
            exact lookup3_writeFiber_hi cs s f0 0 p c (by omega)
          · intro p c hx hy hz
            rw [e0, lookup3_congr _ _ _ hkeep]
            exact lookup3_writeFiber_name cs s f0 0 f0 p c hx hy hz
        | j' + 1 =>
          have hj' : j' < rest.length := by
            simp only [List.length_cons] at hj
            omega
          obtain ⟨ihP, ihHi, ihN⟩ := ihB j' hj'
          have e1 : f0 + (j' + 1) = (f0 + 1) + j' := by omega
          have hne : f0 ≠ (f0 + 1) + j' := by omega
          refine ⟨?_, ?_, ?_⟩
          · intro p hp
            rw [e1]
            have := ihP p hp
            simpa [List.getD_cons_succ] using this
          · intro p c hp
            rw [e1, ihHi p c hp,
              lookup3_congr _ _ _ (alook_writeFiber_ne cs s f0 0 _ hne)]
          · intro p c hx hy hz
            rw [e1, ihN p c hx hy hz,
              lookup3_congr _ _ _ (alook_writeFiber_ne cs s f0 0 _ hne)]

theorem lookup3_nil (f p : ℕ) (c : String) : lookup3 [] f p c = none := rfl

theorem convertFromVTK_char (g : PolyData) (t : ℕ) (ft : FiberTree)
    (h : convertFromVTK g t = some ft) :
    ft.no_of_fibers = some g.lines.length ∧ ft.pts_per_fiber = some t ∧
    (∀ f, g.lines.length ≤ f → alook ft.fiberTree f = none) ∧
    (∀ f, f < g.lines.length →
      (∀ p, p < t →
        pointAt ft.fiberTree f p = some (samplePt g (g.lines.getD f []) t p)) ∧
      (∀ p c, t ≤ p → lookup3 ft.fiberTree f p c = none) ∧
      (∀ p c, c ≠ "x" → c ≠ "y" → c ≠ "z" → lookup3 ft.fiberTree f p c = none)) := by
  rw [convertFromVTK] at h
  rcases hs : ingestLines g t [] 0 g.lines with _ | s
  · rw [hs] at h
    exact absurd h (by simp)
  · rw [hs] at h
    simp only [Option.map_some'] at h
    obtain rfl : ft = ⟨s, some g.lines.length, some t⟩ := (Option.some_inj.mp h).symm
    obtain ⟨chA, chB⟩ := ingestLines_char g t g.lines [] s 0 hs
    refine ⟨rfl, rfl, ?_, ?_⟩
    · intro f hf
      have := chA f (Or.inr (by omega))
      simpa [alook] using this
    · intro f hf
      obtain ⟨chP, chHi, chN⟩ := chB f hf
      refine ⟨?_, ?_, ?_⟩
      · intro p hp
        have := chP p hp
        simpa using this
      · intro p c hp
        have := chHi p c hp
        simpa [lookup3_nil] using this
      · intro p c hx hy hz
        have := chN p c hx hy hz
        simpa [lookup3_nil] using this

theorem pointAt_some_parts (s : Store) (f p : ℕ) (v : ℚ × ℚ × ℚ)
    (h : pointAt s f p = some v) :
    lookup3 s f p "x" = some v.1 ∧ lookup3 s f p "y" = some v.2.1 ∧
      lookup3 s f p "z" = some v.2.2 := by
  rcases hx : lookup3 s f p "x" with _ | x
  · simp [pointAt, hx] at h
  · rcases hy : lookup3 s f p "y" with _ | y
    · simp [pointAt, hx, hy] at h
    · rcases hz : lookup3 s f p "z" with _ | z
      · simp [pointAt, hx, hy, hz] at h
      · simp only [pointAt, hx, hy, hz] at h
        obtain rfl : v = (x, y, z) := (Option.some_inj.mp h).symm
        exact ⟨rfl, rfl, rfl⟩

theorem access3_eq_pair (s : Store) (f p : ℕ) (c : String) (q : ℚ)
    (h : lookup3 s f p c = some q) : access3 s f p c = (some q, s) := by
  have h1 : (access3 s f p c).1 = some q := by rw [access3_fst, h]
  have h2 : (access3 s f p c).2 = s := access3_some_snd s f p c q h1
  calc access3 s f p c = ((access3 s f p c).1, (access3 s f p c).2) := rfl
    _ = (some q, s) := by rw [h1, h2]

theorem readPts_eq_map : ∀ (ps : List ℕ) (s : Store) (f : ℕ) (vals : ℕ → ℚ × ℚ × ℚ),
    (∀ p ∈ ps, pointAt s f p = some (vals p)) →
    readPts s f ps = some (ps.map vals)
  | [], _, _, _, _ => rfl
  | p :: ps, s, f, vals, h => by
    rw [readPts]
    simp only [h p (by simp),
      readPts_eq_map ps s f vals (fun q hq => h q (by simp [hq])), List.map_cons]

theorem getScalarLoop_eq_map : ∀ (ps : List ℕ) (s : Store) (f : ℕ) (name : String)
    (vals : ℕ → ℚ), (∀ p ∈ ps, lookup3 s f p name = some (vals p)) →
    getScalarLoop s f name ps = some (ps.map vals)
  | [], _, _, _, _, _ => rfl
  | p :: ps, s, f, name, vals, h => by
    rw [getScalarLoop]
    simp only [h p (by simp),
      getScalarLoop_eq_map ps s f name vals (fun q hq => h q (by simp [hq])),
      List.map_cons]

theorem getFiberLoop_eq_map : ∀ (ps : List ℕ) (s : Store) (f : ℕ)
    (vals : ℕ → ℚ × ℚ × ℚ), (∀ p ∈ ps, pointAt s f p = some (vals p)) →
    getFiberLoop s f ps = (some (ps.map vals), s)
  | [], _, _, _, _ => rfl
  | p :: ps, s, f, vals, h => by
    obtain ⟨hx, hy, hz⟩ := pointAt_some_parts s f p _ (h p (by simp))
    have hax := access3_eq_pair s f p "x" _ hx
    have hay := access3_eq_pair s f p "y" _ hy
    have haz := access3_eq_pair s f p "z" _ hz
    have ih := getFiberLoop_eq_map ps s f vals (fun q hq => h q (by simp [hq]))
    rw [getFiberLoop]
    simp only [hax, hay, haz, ih, List.map_cons]

theorem getFiberLoop_some_state : ∀ (ps : List ℕ) (s : Store) (f : ℕ)
    (r : List (ℚ × ℚ × ℚ)), (getFiberLoop s f ps).1 = some r →
    (getFiberLoop s f ps).2 = s ∧ ∀ p ∈ ps, (pointAt s f p).isSome
  | [], _, _, _, _ => ⟨rfl, by simp⟩
  | p :: ps, s, f, r, h => by
    rw [getFiberLoop] at h ⊢
    rcases hax : access3 s f p "x" with ⟨ox, s1⟩
    rw [hax] at h
    cases ox with
    | none => simp at h
    | some x =>
      simp only [] at h ⊢
      have hs1 : s = s1 := by
        have h1 : (access3 s f p "x").1 = some x := by rw [hax]
        have h2 := access3_some_snd s f p "x" x h1
        rw [hax] at h2
        exact h2.symm
      subst hs1
      rcases hay : access3 s f p "y" with ⟨oy, s2⟩
      rw [hay] at h
      cases oy with
      | none => simp at h
      | some y =>
        simp only [] at h ⊢
        have hs2 : s = s2 := by
          have h1 : (access3 s f p "y").1 = some y := by rw [hay]
          have h2 := access3_some_snd s f p "y" y h1
          rw [hay] at h2
          exact h2.symm
        subst hs2
        rcases haz : access3 s f p "z" with ⟨oz, s3⟩
        rw [haz] at h
        cases oz with
        | none => simp at h
        | some z =>
          simp only [] at h ⊢
          have hs3 : s = s3 := by
            have h1 : (access3 s f p "z").1 = some z := by rw [haz]
            have h2 := access3_some_snd s f p "z" z h1
            rw [haz] at h2
            exact h2.symm
          subst hs3
          rcases ht : getFiberLoop s f ps with ⟨orest, s4⟩
          rw [ht] at h
          cases orest with
          | none => simp at h
          | some rest =>
            simp only [] at h ⊢
            obtain ⟨ih1, ih2⟩ := getFiberLoop_some_state ps s f rest (by rw [ht])
            rw [ht] at ih1
            refine ⟨ih1, ?_⟩
            intro q hq
            rcases List.mem_cons.mp hq with hq | hq
            · subst hq
              have hpt : pointAt s f q = some (x, y, z) :=
                pointAt_mk s f q x y z (by rw [← access3_fst, hax])
                  (by rw [← access3_fst, hay]) (by rw [← access3_fst, haz])
              rw [hpt]
              rfl
            · exact ih2 q hq

theorem alook_writeScalar_ne (vs : List ℚ) (s : Store) (f : ℕ) (name : String) (p0 : ℕ)
    (f' : ℕ) (h : f ≠ f') : alook (writeScalar s f name p0 vs) f' = alook s f' := by
  induction vs generalizing s p0 with
  | nil => rfl
  | cons v rest ih =>
    rw [writeScalar, ih, alook_set3_ne _ _ _ _ _ _ h]

theorem lookup3_writeScalar_lo (vs : List ℚ) (s : Store) (f : ℕ) (name : String) (p0 : ℕ)
    (p : ℕ) (c : String) (h : p < p0) :
    lookup3 (writeScalar s f name p0 vs) f p c = lookup3 s f p c := by
  induction vs generalizing s p0 with
  | nil => rfl
  | cons v rest ih =>
    rw [writeScalar, ih _ _ (by omega),
      lookup3_set3_ne _ _ _ _ _ _ _ _ (Or.inr (Or.inl (by omega)))]

theorem lookup3_writeScalar_hi (vs : List ℚ) (s : Store) (f : ℕ) (name : String) (p0 : ℕ)
    (p : ℕ) (c : String) (h : p0 + vs.length ≤ p) :
    lookup3 (writeScalar s f name p0 vs) f p c = lookup3 s f p c := by
  induction vs generalizing s p0 with
  | nil => rfl
  | cons v rest ih =>
    rw [List.length_cons] at h
    rw [writeScalar, ih _ _ (by omega),
      lookup3_set3_ne _ _ _ _ _ _ _ _ (Or.inr (Or.inl (by omega)))]

theorem lookup3_writeScalar_name (vs : List ℚ) (s : Store) (f : ℕ) (name : String)
    (p0 : ℕ) (f' p : ℕ) (c : String) (hc : c ≠ name) :
    lookup3 (writeScalar s f name p0 vs) f' p c = lookup3 s f' p c := by
  induction vs generalizing s p0 with
  | nil => rfl
  | cons v rest ih =>
    rw [writeScalar, ih,
      lookup3_set3_ne _ _ _ _ _ _ _ _ (Or.inr (Or.inr (Ne.symm hc)))]

theorem lookup3_writeScalar_at (vs : List ℚ) (s : Store) (f : ℕ) (name : String)
    (p0 : ℕ) (i : ℕ) (h : i < vs.length) :
    lookup3 (writeScalar s f name p0 vs) f (p0 + i) name = vs.get? i := by
  induction vs generalizing s p0 i with
  | nil => exact absurd h (by simp)
  | cons v rest ih =>
    match i with
    | 0 =>
      rw [writeScalar]
      have e : p0 + 0 = p0 := rfl
      rw [e, lookup3_writeScalar_lo _ _ _ _ _ _ _ (by omega), lookup3_set3_self]
      rfl
    | j + 1 =>
      rw [writeScalar]
      have e : p0 + (j + 1) = (p0 + 1) + j := by omega
      rw [e, ih _ _ _ (by simpa using Nat.lt_of_succ_lt_succ (by simpa using h))]
      rfl

theorem scalarValsAt_eq_map : ∀ (idxs : List ℚ) (line : List ℕ) (scalarData : List ℚ)
    (vs : List ℚ), scalarValsAt line scalarData idxs = some vs →
    vs = idxs.map (fun lineIdx => scalarData.getD (line.getD (pyround lineIdx).toNat 0) 0)
  | [], _, _, vs, h => by
    rw [scalarValsAt] at h
    simp only [List.map_nil]
    exact (Option.some_inj.mp h).symm
  | lineIdx :: rest, line, scalarData, vs, h => by
    rw [scalarValsAt] at h
    rcases hv : scalarData.get? (line.getD (pyround lineIdx).toNat 0) with _ | v
    · rw [hv] at h
      exact absurd h (by simp)
    · rw [hv] at h
      rcases hrest : scalarValsAt line scalarData rest with _ | vs'
      · rw [hrest] at h
        exact absurd h (by simp)
      · rw [hrest] at h
        simp only at h
        obtain rfl : vs = v :: vs' := (Option.some_inj.mp h).symm
        have hval : scalarData.getD (line.getD (pyround lineIdx).toNat 0) 0 = v := by
          rw [List.getD_eq_getElem?_getD, ← List.get?_eq_getElem?, hv]
          rfl
        rw [List.map_cons]
        exact congrArg₂ _ hval.symm (scalarValsAt_eq_map rest line scalarData vs' hrest)

theorem scalarSamples_eq (g : PolyData) (scalarData : List ℚ) (f t : ℕ) (vs : List ℚ)
    (h : scalarSamples (g.lines.getD f []) scalarData t = some vs) :
    vs = nearestOriginalScalar g scalarData f t := by
  rw [scalarSamples] at h
  rcases hc : calc_fiber_indices (g.lines.getD f []).length t with _ | idxs
  · rw [hc] at h
    exact absurd h (by simp)
  · rw [hc] at h
    simp only [Option.some_bind] at h
    have ht1 : t ≠ 1 := by
      intro h1
      subst h1
      simp [calc_fiber_indices] at hc
    rw [calc_fiber_indices_eq _ _ ht1] at hc
    obtain rfl : idxs = (List.range t).map (samplePos (g.lines.getD f []).length t) :=
      Option.some_inj.mp hc.symm
    rw [scalarValsAt_eq_map _ _ _ _ h, nearestOriginalScalar, List.map_map]
    rfl

theorem addScalarLoop_char (g : PolyData) (scalarData : List ℚ) (name : String)
    (t : ℕ) : ∀ (k : ℕ) (s s' : Store) (f0 : ℕ),
    addScalarLoop g scalarData name t s f0 k = some s' →
    (∀ f p c, (f < f0 ∨ f0 + k ≤ f) → lookup3 s' f p c = lookup3 s f p c) ∧
    (∀ j, j < k →
      (∀ p, p < t → lookup3 s' (f0 + j) p name = some (scalarAt g scalarData (f0 + j) t p)) ∧
      (∀ p c, t ≤ p → lookup3 s' (f0 + j) p c = lookup3 s (f0 + j) p c) ∧
      (∀ p c, c ≠ name → lookup3 s' (f0 + j) p c = lookup3 s (f0 + j) p c))
  | 0, s, s', f0, h => by
    obtain rfl : s = s' := by
      rw [addScalarLoop] at h
      simpa using h
    exact ⟨fun f p c _ => rfl, fun j hj => absurd hj (by omega)⟩
  | k + 1, s, s', f0, h => by
    rw [addScalarLoop] at h
    rcases hvs : scalarSamples (g.lines.getD f0 []) scalarData t with _ | vs
    · rw [hvs] at h
      exact absurd h (by simp)
    · rw [hvs] at h
      simp only at h
      have hveq : vs = nearestOriginalScalar g scalarData f0 t :=
        scalarSamples_eq g scalarData f0 t vs hvs
      have hvlen : vs.length = t := by rw [hveq, nearestOriginalScalar]; simp
      obtain ⟨ihA, ihB⟩ := addScalarLoop_char g scalarData name t k
        (writeScalar s f0 name 0 vs) s' (f0 + 1) h
      refine ⟨?_, ?_⟩
      · intro f p c hf
        have hfz : f0 ≠ f := by omega
        rw [ihA f p c (by omega),
          lookup3_congr _ _ _ (alook_writeScalar_ne vs s f0 name 0 f hfz)]
      · intro j hj
        match j with
        | 0 =>
          have e0 : f0 + 0 = f0 := rfl
          have hkeep : ∀ p c, lookup3 s' f0 p c = lookup3 (writeScalar s f0 name 0 vs) f0 p c :=
            fun p c => ihA f0 p c (Or.inl (by omega))
          refine ⟨?_, ?_, ?_⟩
          · intro p hp
            rw [e0, hkeep]
            have e1 : (0 : ℕ) + p = p := Nat.zero_add p
            have := lookup3_writeScalar_at vs s f0 name 0 p (by omega)
            rw [e1] at this
            rw [this, hveq, nearestOriginalScalar, getq_map_range t p _ hp]
          · intro p c hp
            rw [e0, hkeep, lookup3_writeScalar_hi vs s f0 name 0 p c (by omega)]
          · intro p c hc
            rw [e0, hkeep, lookup3_writeScalar_name vs s f0 name 0 f0 p c hc]
        | j' + 1 =>
          obtain ⟨ihP, ihHi, ihN⟩ := ihB j' (by omega)
          have e1 : f0 + (j' + 1) = (f0 + 1) + j' := by omega
          have hne : f0 ≠ (f0 + 1) + j' := by omega
          refine ⟨?_, ?_, ?_⟩
          · intro p hp
            rw [e1]
            exact ihP p hp
          · intro p c hp
            rw [e1, ihHi p c hp,
              lookup3_congr _ _ _ (alook_writeScalar_ne vs s f0 name 0 _ hne)]
          · intro p c hc
            rw [e1, ihN p c hc,
              lookup3_congr _ _ _ (alook_writeScalar_ne vs s f0 name 0 _ hne)]

theorem segSum_shift (pts : ℕ → ℚ × ℚ × ℚ) :
    ∀ (k a : ℕ), 1 ≤ a → segSum pts (a + 1) k = segSum (fun i => pts (i + 1)) a k
  | 0, _, _ => rfl
  | k + 1, a, ha => by
    rw [segSum, segSum, segSum_shift pts k (a + 1) (by omega)]
    have e1 : a + 1 - 1 = a := by omega
    have e2 : a - 1 + 1 = a := by omega
    rw [e1, e2]

theorem arcLengthSpec_map_range :
    ∀ (t : ℕ) (pts : ℕ → ℚ × ℚ × ℚ),
    arcLengthSpec ((List.range (t + 1)).map pts) = segSum pts 1 t
  | 0, pts => by
    simp [List.range_succ_eq_map, arcLengthSpec, segSum]
  | t + 1, pts => by
    have key : ∀ (u : ℕ) (q : ℕ → ℚ × ℚ × ℚ),
        (List.range (u + 1)).map q = q 0 :: (List.range u).map (fun i => q (i + 1)) := by
      intro u q
      rw [List.range_succ_eq_map, List.map_cons, List.map_map]
      rfl
    rw [key (t + 1) pts, key t (fun i => pts (i + 1))]
    rw [arcLengthSpec]
    have hIH : arcLengthSpec ((List.range (t + 1)).map (fun i => pts (i + 1)))
        = segSum (fun i => pts (i + 1)) 1 t :=
      arcLengthSpec_map_range t (fun i => pts (i + 1))
    rw [key t (fun i => pts (i + 1))] at hIH
    rw [hIH, ← segSum_shift pts t 1 (by omega)]
    show segLen (pts 0) (pts 1) + segSum pts 2 t = segSum pts 1 (t + 1)
    rw [segSum]

theorem fiberLenLoop_eq (s : Store) (f t : ℕ) (pts : ℕ → ℚ × ℚ × ℚ)
    (hpts : ∀ p, p < t → pointAt s f p = some (pts p)) :
    ∀ (k a : ℕ), 1 ≤ a → a + k ≤ t →
    fiberLenLoop s f (List.range' a k) = some (segSum pts a k)
  | 0, a, _, _ => rfl
  | k + 1, a, ha, hak => by
    rw [List.range'_succ, fiberLenLoop, hpts a (by omega), hpts (a - 1) (by omega),
      fiberLenLoop_eq s f t pts hpts k (a + 1) (by omega) (by omega)]
    rfl

theorem calcLens_eq (s : Store) (t : ℕ) (lenOf : ℕ → ℝ) :
    ∀ (fidxes : List ℕ),
    (∀ f ∈ fidxes, fiberLenLoop s f (List.range' 1 (t - 1)) = some (lenOf f)) →
    calcLens s t fidxes = some (fidxes.map lenOf)
  | [], _ => rfl
  | f :: fs, h => by
    rw [calcLens, h f (by simp),
      calcLens_eq s t lenOf fs (fun f' hf' => h f' (by simp [hf']))]
    rfl

theorem pyround_nonneg (q : ℚ) (h : 0 ≤ q) : 0 ≤ pyround q := by
  rw [pyround, if_pos h]
  positivity

theorem pyround_le_nat (q : ℚ) (m : ℕ) (h0 : 0 ≤ q) (h : q ≤ (m : ℚ)) :
    pyround q ≤ (m : ℤ) := by
  rw [pyround, if_pos h0]
  have h1 : ⌊q + 1 / 2⌋ ≤ ⌊(m : ℚ) + 1 / 2⌋ := Int.floor_le_floor (by linarith)
  have h2 : ⌊(m : ℚ) + 1 / 2⌋ = (m : ℤ) := by
    rw [add_comm, show ((m : ℚ)) = ((m : ℤ) : ℚ) by push_cast; ring,
      Int.floor_add_int]
    norm_num
  omega

theorem samplePos_nonneg (n t i : ℕ) (hn : 1 ≤ n) (ht : 2 ≤ t) :
    0 ≤ samplePos n t i := by
  rw [samplePos]
  have h1 : (1 : ℚ) ≤ (n : ℚ) := by exact_mod_cast hn
  have h2 : (2 : ℚ) ≤ (t : ℚ) := by exact_mod_cast ht
  have h3 : (0 : ℚ) ≤ ((n : ℚ) - 1) / ((t : ℚ) - 1) :=
    div_nonneg (by linarith) (by linarith)
  positivity

theorem samplePos_le (n t i : ℕ) (hn : 1 ≤ n) (ht : 2 ≤ t) (hi : i ≤ t - 1) :
    samplePos n t i ≤ (n : ℚ) - 1 := by
  rw [samplePos]
  have h1 : (1 : ℚ) ≤ (n : ℚ) := by exact_mod_cast hn
  have h2 : (2 : ℚ) ≤ (t : ℚ) := by exact_mod_cast ht
  have h3 : (0 : ℚ) ≤ ((n : ℚ) - 1) / ((t : ℚ) - 1) :=
    div_nonneg (by linarith) (by linarith)
  have hi' : (i : ℚ) ≤ (t : ℚ) - 1 := by
    have hc : ((i : ℕ) : ℚ) ≤ ((t - 1 : ℕ) : ℚ) := by exact_mod_cast hi
    rw [Nat.cast_sub (by omega)] at hc
    push_cast at hc ⊢
    linarith
  have h4 : (i : ℚ) * (((n : ℚ) - 1) / ((t : ℚ) - 1)) ≤
      ((t : ℚ) - 1) * (((n : ℚ) - 1) / ((t : ℚ) - 1)) :=
    mul_le_mul_of_nonneg_right hi' h3
  refine le_trans h4 (le_of_eq ?_)
  have ht1 : (t : ℚ) - 1 ≠ 0 := by linarith
  field_simp

theorem srcIdx_lt (len t i : ℕ) (hlen : 1 ≤ len) (ht : 2 ≤ t) (hi : i < t) :
    srcIdx len t i < len := by
  rw [srcIdx]
  have h0 := samplePos_nonneg len t i hlen ht
  have h2 := pyround_nonneg _ h0
  have h3 : pyround (samplePos len t i) ≤ ((len - 1 : ℕ) : ℤ) := by
    refine pyround_le_nat _ _ h0 ?_
    rw [Nat.cast_sub hlen]
    push_cast
    have h1 := samplePos_le len t i hlen ht (by omega)
    linarith
  omega

theorem srcIdx_self (t i : ℕ) (ht : 2 ≤ t) : srcIdx t t i = i := by
  have ht1 : (t : ℚ) - 1 ≠ 0 := by
    have : (2 : ℚ) ≤ (t : ℚ) := by exact_mod_cast ht
    linarith
  have hpos : samplePos t t i = (i : ℚ) := by
    rw [samplePos]
    field_simp
  rw [srcIdx, hpos, pyround_natCast]
  simp

theorem isSome_eq_some_getD {α : Type} (o : Option α) (d : α) (h : o.isSome = true) :
    o = some (o.getD d) := by
  cases o with
  | none => simp at h
  | some a => rfl

theorem scalarValsAt_isSome (line : List ℕ) (scalarData : List ℚ) :
    ∀ (idxs : List ℚ),
    (∀ li ∈ idxs, (pyround li).toNat < line.length) →
    (∀ pid ∈ line, pid < scalarData.length) →
    (scalarValsAt line scalarData idxs).isSome = true
  | [], _, _ => rfl
  | li :: rest, hin, hline => by
    rw [scalarValsAt]
    have h1 : (pyround li).toNat < line.length := hin li (by simp)
    have h2 : line.getD (pyround li).toNat 0 ∈ line := by
      rw [List.getD_eq_getElem line 0 h1]
      exact List.getElem_mem h1
    have h3 : line.getD (pyround li).toNat 0 < scalarData.length := hline _ h2
    rcases hv : scalarData.get? (line.getD (pyround li).toNat 0) with _ | v
    · rw [List.get?_eq_getElem?, List.getElem?_eq_none_iff] at hv
      omega
    · have ih := scalarValsAt_isSome line scalarData rest
        (fun q hq => hin q (by simp [hq])) hline
      rcases hrest : scalarValsAt line scalarData rest with _ | vs
      · rw [hrest] at ih
        simp at ih
      · simp

theorem scalarSamples_isSome (g : PolyData) (scalarData : List ℚ) (f t : ℕ)
    (ht : 2 ≤ t) (hlen : 1 ≤ (g.lines.getD f []).length)
    (hids : ∀ pid ∈ g.lines.getD f [], pid < scalarData.length) :
    (scalarSamples (g.lines.getD f []) scalarData t).isSome = true := by
  rw [scalarSamples, calc_fiber_indices_eq _ _ (by omega), Option.some_bind]
  refine scalarValsAt_isSome _ _ _ ?_ hids
  intro li hli
  rw [List.mem_map] at hli
  obtain ⟨i, hi, rfl⟩ := hli
  rw [List.mem_range] at hi
  exact srcIdx_lt _ t i hlen ht hi

theorem addScalarLoop_isSome (g : PolyData) (scalarData : List ℚ) (name : String)
    (t : ℕ) (ht : 2 ≤ t) :
    ∀ (k : ℕ) (s : Store) (f0 : ℕ),
    (∀ f, f0 ≤ f → f < f0 + k → 1 ≤ (g.lines.getD f []).length ∧
      ∀ pid ∈ g.lines.getD f [], pid < scalarData.length) →
    (addScalarLoop g scalarData name t s f0 k).isSome = true
  | 0, _, _, _ => rfl
  | k + 1, s, f0, hg => by
    rw [addScalarLoop]
    obtain ⟨h1, h2⟩ := hg f0 (by omega) (by omega)
    have hs := scalarSamples_isSome g scalarData f0 t ht h1 h2
    rcases hvs : scalarSamples (g.lines.getD f0 []) scalarData t with _ | vs
    · rw [hvs] at hs
      simp at hs
    · exact addScalarLoop_isSome g scalarData name t ht k _ (f0 + 1)
        (fun f hf1 hf2 => hg f (by omega) (by omega))

theorem addScalar_isSome (ft : FiberTree) (g : PolyData) (scalarData : List ℚ)
    (name : String) (t : ℕ) (n : ℕ) (hn : ft.no_of_fibers = some n) (ht : 2 ≤ t)
    (hg : ∀ f, f < n → 1 ≤ (g.lines.getD f []).length ∧
      ∀ pid ∈ g.lines.getD f [], pid < scalarData.length) :
    (addScalar ft g scalarData name t).isSome = true := by
  rw [addScalar, hn]
  have h := addScalarLoop_isSome g scalarData name t ht n ft.fiberTree 0
    (fun f hf1 hf2 => hg f (by omega))
  rcases hl : addScalarLoop g scalarData name t ft.fiberTree 0 n with _ | s
  · rw [hl] at h
    simp at h
  · simpa using h

theorem getFiberLoop_none_head (s : Store) (f : ℕ) (k : ℕ)
    (h : lookup3 s f 0 "x" = none) :
    (getFiberLoop s f (List.range (k + 1))).1 = none := by
  rw [List.range_succ_eq_map, getFiberLoop]
  rcases hax : access3 s f 0 "x" with ⟨ox, s1⟩
  have hox : ox = none := by
    have := access3_fst s f 0 "x"
    rw [hax, h] at this
    exact this
  subst hox
  rfl

theorem getScalarLoop_none_head (s : Store) (f : ℕ) (name : String) (k : ℕ)
    (h : lookup3 s f 0 name = none) :
    getScalarLoop s f name (List.range (k + 1)) = none := by
  rw [List.range_succ_eq_map, getScalarLoop, h]

theorem getD_map_range_self {α : Type} (l : List α) (d : α) :
    (List.range l.length).map (fun i => l.getD i d) = l := by
  induction l with
  | nil => simp
  | cons a tl ih =>
    rw [List.length_cons, List.range_succ_eq_map, List.map_cons, List.map_map]
    rw [List.getD_cons_zero]
    refine congrArg _ ?_
    calc (List.range tl.length).map ((fun i => (a :: tl).getD i d) ∘ Nat.succ)
        = (List.range tl.length).map (fun i => tl.getD i d) := by
          refine List.map_congr_left ?_
          intro i _
          simp
      _ = tl := ih

theorem getD_append_left {α : Type} (l l' : List α) (i : ℕ) (d : α) (h : i < l.length) :
    (l ++ l').getD i d = l.getD i d := by
  rw [List.getD_eq_getElem?_getD, List.getD_eq_getElem?_getD, List.getElem?_append_left h]

theorem getD_append_offset {α : Type} (l l' : List α) (i : ℕ) (d : α) :
    (l ++ l').getD (l.length + i) d = l'.getD i d := by
  rw [List.getD_eq_getElem?_getD, List.getD_eq_getElem?_getD,
    List.getElem?_append_right (by omega)]
  have e : l.length + i - l.length = i := by omega
  rw [e]

theorem fiberIdsFrom_map {α : Type} (start t : ℕ) (g : ℕ → α) :
    (fiberIdsFrom start t).map g = (List.range t).map (fun i => g (start + i)) := by
  rw [fiberIdsFrom, List.map_map]
  rfl

theorem convertToVTKLoop_decode (s : Store) (t : ℕ) (row : ℕ → List (ℚ × ℚ × ℚ)) :
    ∀ (fs : List ℕ) (pts : List (ℚ × ℚ × ℚ)) (lns : List (List ℕ)),
    (∀ f ∈ fs, readPts s f (List.range t) = some (row f)) →
    (∀ f ∈ fs, (row f).length = t) →
    (∀ line ∈ lns, ∀ pid ∈ line, pid < pts.length) →
    ∃ out : List (ℚ × ℚ × ℚ) × List (List ℕ),
      convertToVTKLoop s t [] pts lns fs = some out ∧
      out.2.map (fun line => line.map (fun pid => out.1.getD pid (0, 0, 0))) =
        lns.map (fun line => line.map (fun pid => pts.getD pid (0, 0, 0))) ++ fs.map row
  | [], pts, lns, _, _, _ => ⟨(pts, lns), rfl, by simp⟩
  | f :: fs, pts, lns, hrow, hlen, hbnd => by
    rw [convertToVTKLoop, if_neg (by simp), hrow f (by simp)]
    have hlenf : (row f).length = t := hlen f (by simp)
    obtain ⟨out, hloop, hdec⟩ :=
      convertToVTKLoop_decode s t row fs (pts ++ row f)
        (lns ++ [fiberIdsFrom pts.length t])
        (fun f' hf' => hrow f' (by simp [hf']))
        (fun f' hf' => hlen f' (by simp [hf']))
        (by
          intro line hline pid hpid
          rw [List.mem_append] at hline
          rcases hline with hline | hline
          · have := hbnd line hline pid hpid
            rw [List.length_append]
            omega
          · rw [List.mem_singleton] at hline
            subst hline
            rw [fiberIdsFrom, List.mem_map] at hpid
            obtain ⟨i, hi, rfl⟩ := hpid
            rw [List.mem_range] at hi
            rw [List.length_append, hlenf]
            omega)
    refine ⟨out, hloop, ?_⟩
    rw [hdec, List.map_append]
    have hstable : lns.map (fun line => line.map (fun pid => (pts ++ row f).getD pid (0, 0, 0)))
        = lns.map (fun line => line.map (fun pid => pts.getD pid (0, 0, 0))) := by
      refine List.map_congr_left ?_
      intro line hline
      refine List.map_congr_left ?_
      intro pid hpid
      exact getD_append_left pts (row f) pid _ (hbnd line hline pid hpid)
    have hnew : (fiberIdsFrom pts.length t).map
        (fun pid => (pts ++ row f).getD pid (0, 0, 0)) = row f := by
      rw [fiberIdsFrom_map]
      have h1 : ∀ i ∈ List.range t,
          (pts ++ row f).getD (pts.length + i) (0, 0, 0) = (row f).getD i (0, 0, 0) :=
        fun i _ => getD_append_offset pts (row f) i _
      rw [List.map_congr_left h1, ← hlenf]
      exact getD_map_range_self (row f) _
    rw [hstable, List.map_cons]
    simp only [List.map_append, List.map_cons, List.map_nil]
    rw [hnew]
    rw [List.append_assoc]
    rfl

theorem convertFromVTK_one (g : PolyData) (hne : g.lines ≠ []) :
    convertFromVTK g 1 = none := by
  obtain ⟨line, rest, hcons⟩ := List.exists_cons_of_ne_nil hne
  rw [convertFromVTK, hcons]
  simp [ingestLines, fiberSamples, calc_fiber_indices]

/-- Claim C1: for every sourcePointCount ≥ 1 and targetCount ≥ 2,
`computeSamplePositions` (`_calc_fiber_indices`) returns exactly targetCount
fractional positions `i * (sourcePointCount - 1) / (targetCount - 1)`,
non-decreasing, with first element 0 and last element sourcePointCount - 1. -/
theorem calc_fiber_indices_spec (n t : ℕ) (hn : 1 ≤ n) (ht : 2 ≤ t) :
    ∃ l : List ℚ, calc_fiber_indices n t = some l ∧ l.length = t ∧
      (∀ i, i < t → l.get? i = some ((i : ℚ) * (((n : ℚ) - 1) / ((t : ℚ) - 1)))) ∧
      l.Pairwise (· ≤ ·) ∧ l.head? = some 0 ∧ l.getLast? = some ((n : ℚ) - 1) := by
  have ht1 : t ≠ 1 := by omega
  refine ⟨(List.range t).map (samplePos n t), calc_fiber_indices_eq n t ht1, by simp,
    ?_, ?_, ?_, ?_⟩
  · intro i hi
    exact getq_map_range t i _ hi
  · rw [List.pairwise_map]
    have hq1 : (1 : ℚ) ≤ (n : ℚ) := by exact_mod_cast hn
    have hq2 : (2 : ℚ) ≤ (t : ℚ) := by exact_mod_cast ht
    have hstep : (0 : ℚ) ≤ ((n : ℚ) - 1) / ((t : ℚ) - 1) :=
      div_nonneg (by linarith) (by linarith)
    refine List.Pairwise.imp ?_ (List.pairwise_lt_range t)
    intro i j hij
    rw [samplePos, samplePos]
    have : (i : ℚ) ≤ (j : ℚ) := by exact_mod_cast le_of_lt hij
    exact mul_le_mul_of_nonneg_right this hstep
  · obtain ⟨k, rfl⟩ : ∃ k, t = k + 1 := ⟨t - 1, by omega⟩
    rw [List.range_succ_eq_map, List.map_cons, List.head?_cons]
    rw [samplePos]
    norm_num
  · rw [List.getLast?_eq_getElem?, List.length_map, List.length_range,
      List.getElem?_map, List.getElem?_range (by omega : t - 1 < t)]
    have hc : ((t - 1 : ℕ) : ℚ) = (t : ℚ) - 1 := by
      rw [Nat.cast_sub (by omega)]
      norm_num
    have ht0 : (t : ℚ) - 1 ≠ 0 := by
      have : (2 : ℚ) ≤ (t : ℚ) := by exact_mod_cast ht
      linarith
    rw [Option.map_some']
    refine congrArg _ ?_
    rw [samplePos, hc]
    field_simp

/-- Claim C1 witness: the resampler at sourcePointCount = 3, targetCount = 4. -/
theorem calc_fiber_indices_spec_witness :
    1 ≤ 3 ∧ 2 ≤ 4 ∧
    (∃ l : List ℚ, calc_fiber_indices 3 4 = some l ∧ l.length = 4 ∧
      (∀ i, i < 4 → l.get? i = some ((i : ℚ) * (((3 : ℚ) - 1) / ((4 : ℚ) - 1)))) ∧
      l.Pairwise (· ≤ ·) ∧ l.head? = some 0 ∧ l.getLast? = some ((3 : ℚ) - 1)) :=
  ⟨by decide, by decide, calc_fiber_indices_spec 3 4 (by decide) (by decide)⟩

/-- Claim C4 counterexample: targetCount = 0 is < 2, yet the resampler silently
returns the empty list (`range(0)` never runs, so the zero step is never used)
instead of failing. -/
theorem calc_fiber_indices_t0_cex : calc_fiber_indices 5 0 = some [] := rfl

/-- Claim C4 (amended): the resampler fails iff targetCount = 1 — the only case
where `(pts_per_fiber - 1.0)` is a zero divisor; targetCount ≤ 0 returns an empty
list with no error.  In particular (5, 1) fails as the claim's instance states. -/
theorem calc_fiber_indices_fail_iff (n t : ℕ) :
    (calc_fiber_indices n t = none ↔ t = 1) ∧ calc_fiber_indices 5 1 = none := by
  refine ⟨?_, rfl⟩
  by_cases h : t = 1 <;> simp [calc_fiber_indices, h]

theorem ingestLines_isSome (g : PolyData) (t : ℕ) (ht : t ≠ 1) :
    ∀ (ls : List (List ℕ)) (s : Store) (f0 : ℕ),
    (ingestLines g t s f0 ls).isSome = true
  | [], _, _ => rfl
  | line :: rest, s, f0 => by
    rw [ingestLines, fiberSamples_eq g t line ht]
    exact ingestLines_isSome g t ht rest _ (f0 + 1)

/-- Claim C5 (amended): `convertFromVTK` does not fail on fibers with fewer than
2 points — ingestion succeeds for every geometry whenever targetPointCount ≠ 1
(a 1-point fiber is silently resampled to copies of its single point); the only
resampler failure is the targetPointCount = 1 division by zero, independent of
any fiber's length. -/
theorem convertFromVTK_short_fiber_amended (g : PolyData) (t : ℕ) (ht : t ≠ 1) :
    (convertFromVTK g t).isSome = true := by
  rw [convertFromVTK]
  have h := ingestLines_isSome g t ht g.lines [] 0
  rcases hl : ingestLines g t [] 0 g.lines with _ | s
  · rw [hl] at h
    simp at h
  · simp

/-- Claim C5 counterexample: the geometry `gOnePt` contains a fiber with a single
point (fewer than 2), yet ingestion with targetPointCount = 2 succeeds instead
of propagating a resampler error. -/
theorem convertFromVTK_onept_cex : (convertFromVTK gOnePt 2).isSome = true := rfl

/-- Claim C5 witness. -/
theorem convertFromVTK_short_fiber_amended_witness :
    (2 : ℕ) ≠ 1 ∧ (convertFromVTK gOnePt 2).isSome = true :=
  ⟨by decide, convertFromVTK_short_fiber_amended gOnePt 2 (by decide)⟩

/-- Claim C2 counterexample: a geometry whose single fiber has exactly 1 point,
ingested with targetPointCount = 1 (the fiber's own point count), fails with the
resampler's division by zero — so no round trip exists for pointsPerFiber = 1. -/
theorem roundtrip_cex : convertFromVTK gOnePt 1 = none := rfl

/-- Claim C2 (amended): ingesting a geometry whose every fiber has exactly
targetPointCount points, whenever ingestion succeeds (i.e. except for
targetPointCount = 1 on a nonempty geometry), and exporting with no exclusions
reproduces exactly the same per-fiber coordinate sequences in order. -/
theorem roundtrip_amended (g : PolyData) (t : ℕ) (ft : FiberTree)
    (hL : ∀ line ∈ g.lines, line.length = t)
    (hI : convertFromVTK g t = some ft) :
    ∃ out : PolyData, convertToVTK ft [] = some out ∧ fiberCoords out = fiberCoords g := by
  obtain ⟨hno, hpts, hout, hin⟩ := convertFromVTK_char g t ft hI
  have hlen : ∀ f, f < g.lines.length → (g.lines.getD f []).length = t := by
    intro f hf
    refine hL _ ?_
    rw [List.getD_eq_getElem g.lines [] hf]
    exact List.getElem_mem hf
  have hrowval : ∀ f, f < g.lines.length →
      readPts ft.fiberTree f (List.range t) =
        some ((List.range t).map (samplePt g (g.lines.getD f []) t)) := by
    intro f hf
    exact readPts_eq_map (List.range t) ft.fiberTree f _
      (fun p hp => (hin f hf).1 p (by rwa [List.mem_range] at hp))
  obtain ⟨out, hloop, hdec⟩ := convertToVTKLoop_decode ft.fiberTree t
    (fun f => (List.range t).map (samplePt g (g.lines.getD f []) t))
    (List.range g.lines.length) [] []
    (fun f hf => hrowval f (by rwa [List.mem_range] at hf))
    (fun f _ => by simp)
    (by simp)
  refine ⟨⟨out.1, out.2⟩, ?_, ?_⟩
  · rw [convertToVTK, hno, hpts]
    simp only []
    rw [hloop]
    rfl
  · show out.2.map (fun line => line.map (fun pid => out.1.getD pid (0, 0, 0))) = _
    rw [hdec, List.map_nil, List.nil_append]
    rw [fiberCoords]
    have hmap := map_getD_range g.lines
      (fun line => line.map (fun pid => g.points.getD pid (0, 0, 0))) []
    rw [← hmap]
    refine List.map_congr_left ?_
    intro f hf
    rw [List.mem_range] at hf
    by_cases ht2 : 2 ≤ t
    · have h1 : ∀ i ∈ List.range t,
          samplePt g (g.lines.getD f []) t i =
            g.points.getD ((g.lines.getD f []).getD i 0) (0, 0, 0) := by
        intro i _
        rw [samplePt, hlen f hf, srcIdx_self t i ht2]
      rw [List.map_congr_left h1, ← hlen f hf]
      exact map_getD_range (g.lines.getD f []) (fun pid => g.points.getD pid (0, 0, 0)) 0
    · have ht0 : t = 0 := by
        have h01 : t = 0 ∨ t = 1 := by omega
        rcases h01 with h | h
        · exact h
        · exfalso
          have hne : g.lines ≠ [] := by
            intro hnil
            rw [hnil] at hf
            simp at hf
          rw [h] at hI
          rw [convertFromVTK_one g hne] at hI
          exact Option.noConfusion hI
      subst ht0
      simp only [List.range_zero, List.map_nil]
      have : (g.lines.getD f []).length = 0 := hlen f hf
      rw [List.length_eq_zero] at this
      rw [this]
      rfl

/-- Claim C2 witness: round trip of a one-fiber, two-point geometry at
targetPointCount = 2. -/
theorem roundtrip_amended_witness :
    (∀ line ∈ wg2.lines, line.length = 2) ∧ convertFromVTK wg2 2 = some wft2 ∧
      ∃ out : PolyData, convertToVTK wft2 [] = some out ∧
        fiberCoords out = fiberCoords wg2 :=
  ⟨by decide, rfl, roundtrip_amended wg2 2 wft2 (by decide) rfl⟩

/-- Claim C3 (code evaluation at the failing input): on a store of four ingested
fibers, `getFibers([0,1,2,3], rejIdx=[1,3])` succeeds and returns FOUR rows, not
two — the output keeps the `np.zeros((len(fidxes), pts_per_fiber))` preallocation
size, and the rows at positions 2 and 3 are left as all-zero padding because the
write cursor only advanced twice. -/
theorem getFibers_padding_bug :
    (getFibers ftFour [0, 1, 2, 3] [1, 3]).isSome = true ∧
    ((getFibers ftFour [0, 1, 2, 3] [1, 3]).getD []).length = 4 ∧
    ((getFibers ftFour [0, 1, 2, 3] [1, 3]).getD []).getD 2 [] =
      List.replicate 2 ((0 : ℚ), (0 : ℚ), (0 : ℚ)) ∧
    ((getFibers ftFour [0, 1, 2, 3] [1, 3]).getD []).getD 3 [] =
      List.replicate 2 ((0 : ℚ), (0 : ℚ), (0 : ℚ)) :=
  ⟨rfl, rfl, rfl, rfl⟩

/-- Claim C6 counterexample: a store ingested with targetPointCount = 0 returns
empty arrays — no failure — both for a far out-of-range fiber index and for a
scalar name that was never attached. -/
theorem extraction_t0_cex :
    convertFromVTK gOnePt 0 = some zeroFt ∧ getFiber zeroFt 5 = some [] ∧
      getScalar zeroFt 0 "FA" = some [] :=
  ⟨rfl, rfl, rfl⟩

/-- Claim C6 (amended): on a store ingested with pointsPerFiber ≥ 1, `getFiber`
fails for every index outside `[0, fiberCount)` and on a never-ingested store,
and `getScalar` fails for every scalar name that was never attached (any name
other than the coordinate keys, right after ingestion); no default value is
returned.  A store ingested with pointsPerFiber = 0 instead returns empty
arrays for any index or name (see the counterexample). -/
theorem getFiber_getScalar_missing_amended (g : PolyData) (t : ℕ) (ft : FiberTree)
    (hI : convertFromVTK g t = some ft) (ht : 1 ≤ t) :
    (∀ idx, g.lines.length ≤ idx → getFiber ft idx = none) ∧
    (∀ idx, getFiber emptyFiberTree idx = none) ∧
    (∀ f name, name ≠ "x" → name ≠ "y" → name ≠ "z" → getScalar ft f name = none) := by
  obtain ⟨hno, hpts, hout, hin⟩ := convertFromVTK_char g t ft hI
  obtain ⟨k, rfl⟩ : ∃ k, t = k + 1 := ⟨t - 1, by omega⟩
  refine ⟨?_, fun idx => rfl, ?_⟩
  · intro idx hidx
    rw [getFiber, getFiberS, hpts]
    refine getFiberLoop_none_head ft.fiberTree idx k ?_
    rw [lookup3, hout idx hidx]
    rfl
  · intro f name hx hy hz
    rw [getScalar, hpts]
    refine getScalarLoop_none_head ft.fiberTree f name k ?_
    by_cases hf : f < g.lines.length
    · exact (hin f hf).2.2 0 name hx hy hz
    · rw [lookup3, hout f (by omega)]
      rfl

/-- Claim C6 witness. -/
theorem getFiber_getScalar_missing_amended_witness :
    convertFromVTK wg2 2 = some wft2 ∧ 1 ≤ 2 ∧
    ((∀ idx, wg2.lines.length ≤ idx → getFiber wft2 idx = none) ∧
     (∀ idx, getFiber emptyFiberTree idx = none) ∧
     (∀ f name, name ≠ "x" → name ≠ "y" → name ≠ "z" → getScalar wft2 f name = none)) :=
  ⟨rfl, by decide,
    getFiber_getScalar_missing_amended wg2 2 wft2 rfl (by decide)⟩

/-- Claim C7 counterexample: a `getFiber` call with an out-of-range index fails,
but it also mutates the store — the `defaultdict` auto-vivification inserts
empty tree nodes for the missing fiber index before the failure, so the store
state after the call differs from the state before. -/
theorem getFiberS_mutation_cex :
    convertFromVTK gOnePt 2 = some cft7 ∧ (getFiberS cft7 1).1 = none ∧
      (getFiberS cft7 1).2 ≠ cft7.fiberTree := by
  refine ⟨rfl, rfl, ?_⟩
  intro h
  have h2 : ((getFiberS cft7 1).2).length = cft7.fiberTree.length := by rw [h]
  exact absurd h2 (by decide)

theorem getScalarLoopS_some_state : ∀ (ps : List ℕ) (s : Store) (f : ℕ)
    (name : String) (r : List ℚ), (getScalarLoopS s f name ps).1 = some r →
    (getScalarLoopS s f name ps).2 = s
  | [], _, _, _, _, _ => rfl
  | p :: ps, s, f, name, r, h => by
    rw [getScalarLoopS] at h ⊢
    rcases hax : access3 s f p name with ⟨ov, s1⟩
    rw [hax] at h
    cases ov with
    | none => simp at h
    | some v =>
      have hs1 : s = s1 := by
        have h1 : (access3 s f p name).1 = some v := by rw [hax]
        have h2 := access3_some_snd s f p name v h1
        rw [hax] at h2
        exact h2.symm
      subst hs1
      simp only [] at h ⊢
      rcases ht : getScalarLoopS s f name ps with ⟨orest, s2⟩
      rw [ht] at h
      cases orest with
      | none => simp at h
      | some rest =>
        simp only [] at h ⊢
        have ih := getScalarLoopS_some_state ps s f name rest (by rw [ht])
        rw [ht] at ih
        exact ih

theorem getFibersLoopS_some_state : ∀ (fs : List ℕ) (s : Store) (t : ℕ)
    (rejIdx : List ℕ) (M : List (List (ℚ × ℚ × ℚ))) (idx : ℕ)
    (r : List (List (ℚ × ℚ × ℚ))),
    (getFibersLoopS s t rejIdx M idx fs).1 = some r →
    (getFibersLoopS s t rejIdx M idx fs).2 = s
  | [], _, _, _, _, _, _, _ => rfl
  | f :: fs, s, t, rejIdx, M, idx, r, h => by
    rw [getFibersLoopS] at h ⊢
    by_cases hrej : f ∈ rejIdx
    · rw [if_pos hrej] at h ⊢
      exact getFibersLoopS_some_state fs s t rejIdx M idx r h
    · rw [if_neg hrej] at h ⊢
      rcases hfl : getFiberLoop s f (List.range t) with ⟨orow, s1⟩
      rw [hfl] at h
      cases orow with
      | none => simp at h
      | some row =>
        have hs1 : s = s1 := by
          have h1 : (getFiberLoop s f (List.range t)).1 = some row := by rw [hfl]
          have h2 := (getFiberLoop_some_state (List.range t) s f row h1).1
          rw [hfl] at h2
          exact h2.symm
        subst hs1
        simp only [] at h ⊢
        exact getFibersLoopS_some_state fs s t rejIdx (M.set idx row) (idx + 1) r h

theorem getScalarsLoopS_some_state : ∀ (fs : List ℕ) (s : Store) (t : ℕ)
    (name : String) (M : List (List ℚ)) (idx : ℕ) (r : List (List ℚ)),
    (getScalarsLoopS s t name M idx fs).1 = some r →
    (getScalarsLoopS s t name M idx fs).2 = s
  | [], _, _, _, _, _, _, _ => rfl
  | f :: fs, s, t, name, M, idx, r, h => by
    rw [getScalarsLoopS] at h ⊢
    rcases hfl : getScalarLoopS s f name (List.range t) with ⟨orow, s1⟩
    rw [hfl] at h
    cases orow with
    | none => simp at h
    | some row =>
      have hs1 : s = s1 := by
        have h1 : (getScalarLoopS s f name (List.range t)).1 = some row := by rw [hfl]
        have h2 := getScalarLoopS_some_state (List.range t) s f name row h1
        rw [hfl] at h2
        exact h2.symm
      subst hs1
      simp only [] at h ⊢
      exact getScalarsLoopS_some_state fs s t name (M.set idx row) (idx + 1) r h

/-- Claim C7 (amended): for every store, every extraction call — `getFiber`,
`getFibers`, `getScalar` or `getScalars` — that succeeds leaves the store's
state unchanged, and calling it again on the resulting state returns the
identical result (the returned dense arrays are fresh value copies built with
`np.zeros`); a failing extraction, however, changes the store's internal state
by auto-vivifying the missing path (see the counterexample). -/
theorem extraction_success_pure_amended (ft : FiberTree) :
    (∀ f r, (getFiberS ft f).1 = some r →
      (getFiberS ft f).2 = ft.fiberTree ∧
      (getFiberS ⟨(getFiberS ft f).2, ft.no_of_fibers, ft.pts_per_fiber⟩ f).1 = some r) ∧
    (∀ fidxes rejIdx r, (getFibersS ft fidxes rejIdx).1 = some r →
      (getFibersS ft fidxes rejIdx).2 = ft.fiberTree ∧
      (getFibersS ⟨(getFibersS ft fidxes rejIdx).2, ft.no_of_fibers, ft.pts_per_fiber⟩
        fidxes rejIdx).1 = some r) ∧
    (∀ f name r, (getScalarS ft f name).1 = some r →
      (getScalarS ft f name).2 = ft.fiberTree ∧
      (getScalarS ⟨(getScalarS ft f name).2, ft.no_of_fibers, ft.pts_per_fiber⟩
        f name).1 = some r) ∧
    (∀ fidxes name r, (getScalarsS ft fidxes name).1 = some r →
      (getScalarsS ft fidxes name).2 = ft.fiberTree ∧
      (getScalarsS ⟨(getScalarsS ft fidxes name).2, ft.no_of_fibers, ft.pts_per_fiber⟩
        fidxes name).1 = some r) := by
  refine ⟨?_, ?_, ?_, ?_⟩
  · intro f r h
    rcases hpts : ft.pts_per_fiber with _ | t
    · rw [getFiberS, hpts] at h
      exact absurd h (by simp)
    · rw [getFiberS, hpts] at h
      obtain ⟨hsnd, _⟩ := getFiberLoop_some_state (List.range t) ft.fiberTree f r h
      have hsnd' : (getFiberS ft f).2 = ft.fiberTree := by
        rw [getFiberS, hpts]
        exact hsnd
      refine ⟨hsnd', ?_⟩
      rw [getFiberS]
      simp only [hpts, hsnd']
      exact h
  · intro fidxes rejIdx r h
    rcases hpts : ft.pts_per_fiber with _ | t
    · rw [getFibersS, hpts] at h
      exact absurd h (by simp)
    · rw [getFibersS, hpts] at h
      have hsnd := getFibersLoopS_some_state fidxes ft.fiberTree t rejIdx
        (List.replicate fidxes.length (List.replicate t (0, 0, 0))) 0 r h
      have hsnd' : (getFibersS ft fidxes rejIdx).2 = ft.fiberTree := by
        rw [getFibersS, hpts]
        exact hsnd
      refine ⟨hsnd', ?_⟩
      rw [getFibersS]
      simp only [hpts, hsnd']
      exact h
  · intro f name r h
    rcases hpts : ft.pts_per_fiber with _ | t
    · rw [getScalarS, hpts] at h
      exact absurd h (by simp)
    · rw [getScalarS, hpts] at h
      have hsnd := getScalarLoopS_some_state (List.range t) ft.fiberTree f name r h
      have hsnd' : (getScalarS ft f name).2 = ft.fiberTree := by
        rw [getScalarS, hpts]
        exact hsnd
      refine ⟨hsnd', ?_⟩
      rw [getScalarS]
      simp only [hpts, hsnd']
      exact h
  · intro fidxes name r h
    rcases hpts : ft.pts_per_fiber with _ | t
    · rw [getScalarsS, hpts] at h
      exact absurd h (by simp)
    · rw [getScalarsS, hpts] at h
      have hsnd := getScalarsLoopS_some_state fidxes ft.fiberTree t name
        (List.replicate fidxes.length (List.replicate t 0)) 0 r h
      have hsnd' : (getScalarsS ft fidxes name).2 = ft.fiberTree := by
        rw [getScalarsS, hpts]
        exact hsnd
      refine ⟨hsnd', ?_⟩
      rw [getScalarsS]
      simp only [hpts, hsnd']
      exact h

/-- Claim C7 witness: a successful call of each extraction function on an
ingested store (the coordinate key `"x"` serves as an attached scalar name). -/
theorem extraction_success_pure_amended_witness :
    ((getFiberS wft2 0).1 = some (((getFiberS wft2 0).1).getD []) ∧
      ((getFiberS wft2 0).2 = wft2.fiberTree ∧
       (getFiberS ⟨(getFiberS wft2 0).2, wft2.no_of_fibers, wft2.pts_per_fiber⟩ 0).1 =
         some (((getFiberS wft2 0).1).getD []))) ∧
    ((getFibersS wft2 [0] []).1 = some (((getFibersS wft2 [0] []).1).getD []) ∧
      ((getFibersS wft2 [0] []).2 = wft2.fiberTree ∧
       (getFibersS ⟨(getFibersS wft2 [0] []).2, wft2.no_of_fibers, wft2.pts_per_fiber⟩
         [0] []).1 = some (((getFibersS wft2 [0] []).1).getD []))) ∧
    ((getScalarS wft2 0 "x").1 = some (((getScalarS wft2 0 "x").1).getD []) ∧
      ((getScalarS wft2 0 "x").2 = wft2.fiberTree ∧
       (getScalarS ⟨(getScalarS wft2 0 "x").2, wft2.no_of_fibers, wft2.pts_per_fiber⟩
         0 "x").1 = some (((getScalarS wft2 0 "x").1).getD []))) ∧
    ((getScalarsS wft2 [0] "x").1 = some (((getScalarsS wft2 [0] "x").1).getD []) ∧
      ((getScalarsS wft2 [0] "x").2 = wft2.fiberTree ∧
       (getScalarsS ⟨(getScalarsS wft2 [0] "x").2, wft2.no_of_fibers, wft2.pts_per_fiber⟩
         [0] "x").1 = some (((getScalarsS wft2 [0] "x").1).getD []))) :=
  ⟨⟨rfl, (extraction_success_pure_amended wft2).1 0 _ rfl⟩,
   ⟨rfl, (extraction_success_pure_amended wft2).2.1 [0] [] _ rfl⟩,
   ⟨rfl, (extraction_success_pure_amended wft2).2.2.1 0 "x" _ rfl⟩,
   ⟨rfl, (extraction_success_pure_amended wft2).2.2.2 [0] "x" _ rfl⟩⟩

/-- Claim C8: after `addScalar` on an ingested store with the same geometry and
target point count as ingestion, `getScalar` returns, for every fiber, exactly
the scalar-array value at the nearest original source point — the source index
obtained by rounding each fractional sample position — never an interpolated
value. -/
theorem addScalar_getScalar_nearest (g : PolyData) (t : ℕ) (ft ft' : FiberTree)
    (sdata : List ℚ) (name : String)
    (hI : convertFromVTK g t = some ft)
    (hA : addScalar ft g sdata name t = some ft')
    (f : ℕ) (hf : f < g.lines.length) :
    getScalar ft' f name = some (nearestOriginalScalar g sdata f t) := by
  obtain ⟨hno, hpts, _, _⟩ := convertFromVTK_char g t ft hI
  rw [addScalar, hno] at hA
  simp only [] at hA
  rcases hl : addScalarLoop g sdata name t ft.fiberTree 0 g.lines.length with _ | s'
  · rw [hl] at hA
    exact absurd hA (by simp)
  · rw [hl] at hA
    simp only [Option.map_some'] at hA
    obtain rfl : ft' = ⟨s', some g.lines.length, ft.pts_per_fiber⟩ := (Option.some_inj.mp hA).symm
    obtain ⟨_, chB⟩ := addScalarLoop_char g sdata name t g.lines.length ft.fiberTree s' 0 hl
    obtain ⟨chV, _, _⟩ := chB f hf
    rw [getScalar]
    simp only [hpts]
    have hread := getScalarLoop_eq_map (List.range t) s' f name
      (scalarAt g sdata f t)
      (fun p hp => by
        have hp' : p < t := by rwa [List.mem_range] at hp
        have := chV p hp'
        rwa [Nat.zero_add] at this)
    rw [hread]
    rfl

/-- Claim C8 witness: ingest a two-point fiber at target count 2, attach "FA"
with the same geometry and count, and read it back. -/
theorem addScalar_getScalar_nearest_witness :
    convertFromVTK wg2 2 = some wft2 ∧ addScalar wft2 wg2 wsd "FA" 2 = some wft8 ∧
      0 < wg2.lines.length ∧
      getScalar wft8 0 "FA" = some (nearestOriginalScalar wg2 wsd 0 2) := by
  have hA : addScalar wft2 wg2 wsd "FA" 2 = some wft8 :=
    isSome_eq_some_getD _ _
      (addScalar_isSome wft2 wg2 wsd "FA" 2 1 rfl (by decide) (by decide))
  exact ⟨rfl, hA, by decide,
    addScalar_getScalar_nearest wg2 2 wft2 wft8 wsd "FA" rfl hA 0 (by decide)⟩

/-- Claim C9: `calcFiberLength` returns, per requested fiber of an ingested
store, the sum of Euclidean distances between consecutive resampled points, and
it fails (`ValueError`) whenever `pts_per_fiber` is smaller than 2. -/
theorem calcFiberLength_spec (g : PolyData) (t : ℕ) (ft : FiberTree)
    (fidxes : List ℕ) (hI : convertFromVTK g t = some ft)
    (hfx : ∀ f ∈ fidxes, f < g.lines.length) :
    (2 ≤ t → calcFiberLength ft fidxes =
      some (fidxes.map (fun f => arcLengthSpec (resampledFiber g t f)))) ∧
    (t < 2 → calcFiberLength ft fidxes = none) := by
  obtain ⟨hno, hpts, hout, hin⟩ := convertFromVTK_char g t ft hI
  constructor
  · intro ht
    rw [calcFiberLength]
    simp only [hpts]
    rw [if_neg (by omega)]
    refine calcLens_eq ft.fiberTree t _ fidxes ?_
    intro f hfmem
    have hf : f < g.lines.length := hfx f hfmem
    have hloop := fiberLenLoop_eq ft.fiberTree f t
      (samplePt g (g.lines.getD f []) t)
      (fun p hp => (hin f hf).1 p hp) (t - 1) 1 (by omega) (by omega)
    rw [hloop]
    obtain ⟨k, rfl⟩ : ∃ k, t = k + 1 := ⟨t - 1, by omega⟩
    have e : k + 1 - 1 = k := by omega
    rw [e]
    rw [resampledFiber, arcLengthSpec_map_range k (samplePt g (g.lines.getD f []) (k + 1))]
  · intro ht
    rw [calcFiberLength]
    simp only [hpts]
    rw [if_pos ht]

/-- Claim C9 witness: the spec's arc-length test fiber (0,0,0), (1,0,0), (1,1,0)
ingested at its own point count. -/
theorem calcFiberLength_spec_witness :
    convertFromVTK wg9 3 = some wft9 ∧ (∀ f ∈ [0], f < wg9.lines.length) ∧
      ((2 ≤ 3 → calcFiberLength wft9 [0] =
        some ([0].map (fun f => arcLengthSpec (resampledFiber wg9 3 f)))) ∧
       (3 < 2 → calcFiberLength wft9 [0] = none)) :=
  ⟨rfl, by decide, calcFiberLength_spec wg9 3 wft9 [0] rfl (by decide)⟩

/-- Claim C10: `addScalar` resamples with its own `pts_per_fiber` argument
(default 20), independent of the store's `pointsPerFiber` from ingestion: after
a successful call, the scalar is present at exactly the point indices
`0 .. pts_per_fiber - 1` of the argument and absent beyond them, while the
coordinates keep the ingestion count and the store's metadata is unchanged —
with no error raised on a mismatch. -/
theorem addScalar_independent_count (g : PolyData) (t tp : ℕ) (ft ft' : FiberTree)
    (sdata : List ℚ) (name : String)
    (hI : convertFromVTK g t = some ft)
    (hx : name ≠ "x") (hy : name ≠ "y") (hz : name ≠ "z")
    (hA : addScalar ft g sdata name tp = some ft')
    (f : ℕ) (hf : f < g.lines.length) :
    (∀ p, p < tp → (lookup3 ft'.fiberTree f p name).isSome = true) ∧
    (∀ p, tp ≤ p → lookup3 ft'.fiberTree f p name = none) ∧
    (∀ p, p < t → (pointAt ft'.fiberTree f p).isSome = true) ∧
    ft'.pts_per_fiber = some t ∧ ft'.no_of_fibers = some g.lines.length := by
  obtain ⟨hno, hpts, hout, hin⟩ := convertFromVTK_char g t ft hI
  rw [addScalar, hno] at hA
  simp only [] at hA
  rcases hl : addScalarLoop g sdata name tp ft.fiberTree 0 g.lines.length with _ | s'
  · rw [hl] at hA
    exact absurd hA (by simp)
  · rw [hl] at hA
    simp only [Option.map_some'] at hA
    obtain rfl : ft' = ⟨s', some g.lines.length, ft.pts_per_fiber⟩ := (Option.some_inj.mp hA).symm
    obtain ⟨_, chB⟩ := addScalarLoop_char g sdata name tp g.lines.length ft.fiberTree s' 0 hl
    obtain ⟨chV, chHi, chN⟩ := chB f hf
    refine ⟨?_, ?_, ?_, hpts, rfl⟩
    · intro p hp
      have := chV p hp
      rw [Nat.zero_add] at this
      rw [this]
      rfl
    · intro p hp
      have h1 := chHi p name hp
      rw [Nat.zero_add] at h1
      rw [h1]
      by_cases hpt : p < t
      · exact (hin f hf).2.2 p name hx hy hz
      · exact (hin f hf).2.1 p name (by omega)
    · intro p hp
      have hx' := chN p "x" (Ne.symm hx)
      have hy' := chN p "y" (Ne.symm hy)
      have hz' := chN p "z" (Ne.symm hz)
      rw [Nat.zero_add] at hx' hy' hz'
      have hpa : pointAt s' f p = pointAt ft.fiberTree f p := by
        rw [pointAt, pointAt, hx', hy', hz']
      show (pointAt s' f p).isSome = true
      rw [hpa, (hin f hf).1 p hp]
      rfl

/-- Claim C10 witness: store ingested at pointsPerFiber = 2, scalar attached with
pts_per_fiber = 3 — no error, scalar present at indices 0..2, coordinates at
0..1. -/
theorem addScalar_independent_count_witness :
    convertFromVTK wg2 2 = some wft2 ∧ addScalar wft2 wg2 wsd "FA" 3 = some wftA ∧
      0 < wg2.lines.length ∧
      ((∀ p, p < 3 → (lookup3 wftA.fiberTree 0 p "FA").isSome = true) ∧
       (∀ p, 3 ≤ p → lookup3 wftA.fiberTree 0 p "FA" = none) ∧
       (∀ p, p < 2 → (pointAt wftA.fiberTree 0 p).isSome = true) ∧
       wftA.pts_per_fiber = some 2 ∧ wftA.no_of_fibers = some wg2.lines.length) := by
  have hA : addScalar wft2 wg2 wsd "FA" 3 = some wftA :=
    isSome_eq_some_getD _ _
      (addScalar_isSome wft2 wg2 wsd "FA" 3 1 rfl (by decide) (by decide))
  exact ⟨rfl, hA, by decide,
    addScalar_independent_count wg2 2 3 wft2 wftA wsd "FA" rfl (by decide) (by decide)
      (by decide) hA 0 (by decide)⟩
